import Mathlib

/-!
# fastpve: the GHCR fallback downloader and the Windows file prompt

A shallow embedding of `vmdownloader/ghcr_win.go` (the registry-reference parser,
the mirror candidate builder, the fallback loop, the resumable copy path, the
credentials and the progress percent) and of the file prompt of
`cmd/fast/prompt_for_win.go`, followed by the theorems that were checked against
the specification.

Modelling conventions
* A Go `string` is modelled as a list of Unicode code points (`Str`).  The
  source only searches for the ASCII bytes `/` and `:` and trims Unicode white
  space, so on valid UTF-8 the byte indices of the source and the code-point
  indices of the model select the same cut points.
* A Go `error` value is modelled by `GoError`; `nil` is `none`.
* `int64` file sizes and offsets are `Int`.  In the copy path they are only
  compared and assigned; where the source computes with them (`tickPercent`) every
  operation is reduced into the `int64` range by `wrapInt64`.
* A prompt of the user is modelled by the choice the user makes.
-/

namespace Fastpve

/-! ## Strings -/

/-- A Go string, as its sequence of code points. -/
abbrev Str := List Char

/-- Go `unicode.IsSpace`: the white-space code points that `strings.TrimSpace` removes. -/
def isSpace (c : Char) : Bool :=
  let n := c.toNat
  (9 ≤ n && n ≤ 13) || n == 32 || n == 0x85 || n == 0xA0 || n == 0x1680 ||
  (0x2000 ≤ n && n ≤ 0x200A) || n == 0x2028 || n == 0x2029 || n == 0x202F ||
  n == 0x205F || n == 0x3000

/-- Go `strings.TrimSpace`: drop leading and trailing white space. -/
def trimSpace (s : Str) : Str :=
  ((s.dropWhile isSpace).reverse.dropWhile isSpace).reverse

/-- Go `strings.IndexByte`: index of the first occurrence of `c`, or `-1`. -/
def indexByte : Str → Char → Int
  | [], _ => -1
  | x :: xs, c =>
    if x = c then 0
    else
      let i := indexByte xs c
      if i < 0 then -1 else i + 1

/-- Go `strings.LastIndexByte`: index of the last occurrence of `c`, or `-1`. -/
def lastIndexByte : Str → Char → Int
  | [], _ => -1
  | x :: xs, c =>
    let i := lastIndexByte xs c
    if 0 ≤ i then i + 1
    else if x = c then 0 else -1

/-- Go slice expression `s[:i]`. -/
def sliceTo (s : Str) (i : Int) : Str := s.take i.toNat

/-- Go slice expression `s[i:]`. -/
def sliceFrom (s : Str) (i : Int) : Str := s.drop i.toNat

/-! ## Errors -/

/-- Go error values that the modelled functions create or pass on. -/
inductive GoError where
  /-- The value of `errors.New(msg)`. -/
  | new (msg : String)
  /-- The value of `fmt.Errorf(format, arg)` with a `%q` string argument. -/
  | errorf (format : String) (arg : Str)
  /-- The value of an operating-system call that failed: the call and the path. -/
  | pathError (op : String) (path : Str)
  /-- The value of a failed registry or network operation of the registry client. -/
  | registry (msg : String)
  /-- The value of `fmt.Errorf(pfx ++ "%w", cause)`. -/
  | wrap (pfx : String) (cause : GoError)
  deriving DecidableEq, Repr

/-! ## `parseRegistryReference` -/

/-- The four results `(host, repo, tag, err)` of `parseRegistryReference`. -/
def parseRegistryReference (reference : Str) : Str × Str × Str × Option GoError :=
  let ref := trimSpace reference
  if ref = [] then
    ([], [], [], some (GoError.new "empty reference"))
  else
    let slash := indexByte ref '/'
    if slash ≤ 0 then
      ([], [], [], some (GoError.errorf "reference %q missing registry host" reference))
    else
      let host := sliceTo ref slash
      let remainder := sliceFrom ref (slash + 1)
      let colon := lastIndexByte remainder ':'
      if colon ≤ 0 ∨ colon = (remainder.length : Int) - 1 then
        ([], [], [], some (GoError.errorf "reference %q must include a tag" reference))
      else
        let repo := sliceTo remainder colon
        let tag := sliceFrom remainder (colon + 1)
        (host, repo, tag, none)

/-! ## `swapRegistryHost` and `buildGHCRReferences` -/

/-- Go `fmt.Sprintf("%s/%s:%s", host, repo, tag)`. -/
def sprintfRef (host repo tag : Str) : Str :=
  host ++ '/' :: repo ++ ':' :: tag

/-- The reference with its registry host replaced by `host`. -/
def swapRegistryHost (reference host : Str) : Str :=
  if host = [] then reference
  else
    let host := trimSpace host
    match parseRegistryReference reference with
    | (_, _, _, some _) => reference
    | (refHost, repo, tag, none) =>
      if refHost = host then reference
      else sprintfRef host repo tag

/-- One iteration of the `for _, mirror := range mirrors` loop of
`buildGHCRReferences`, on the pair `(refs, seen)`; the set `seen` is kept as the
list of its keys. -/
def buildStep (ref : Str) (st : List Str × List Str) (mirror : Str) : List Str × List Str :=
  let mirror := trimSpace mirror
  if mirror = [] then st
  else
    let candidate := swapRegistryHost ref mirror
    if candidate ∈ st.2 then st
    else (st.1 ++ [candidate], candidate :: st.2)

/-- The ordered candidate references for `ref` and the preferred `mirrors`. -/
def buildGHCRReferences (ref : Str) (mirrors : List Str) : List Str :=
  let st := mirrors.foldl (buildStep ref) ([], [])
  if ref ∈ st.2 then st.1 else st.1 ++ [ref]

/-! ## The fallback loop of `downloadWindowsFromGHCR` -/

/-- The context prefix of the error returned when every candidate failed. -/
def fallbackPrefix : String := "GHCR fallback failed: "

/-- The loop `for _, candidate := range refs` of `downloadWindowsFromGHCR` and the
return after it, started with the given `lastErr` in the state `s` that the
fetches read and change.  Besides the `(path, err)` that the function returns, the
result holds the state reached and the candidates on which `fetch` was invoked,
in order. -/
def fallbackLoop {σ : Type} (fetch : Str → σ → (Str × Option GoError) × σ) :
    List Str → Option GoError → σ → (Str × Option GoError) × σ × List Str
  | [], lastErr, s =>
    let lastErr := match lastErr with
      | none => GoError.new "no GHCR reference candidates"
      | some err => err
    (([], some (GoError.wrap fallbackPrefix lastErr)), s, [])
  | candidate :: rest, _, s =>
    match fetch candidate s with
    | ((target, none), s1) => ((target, none), s1, [candidate])
    | ((_, some err), s1) =>
      let r := fallbackLoop fetch rest (some err) s1
      (r.1, r.2.1, candidate :: r.2.2)

/-- The part of `downloadWindowsFromGHCR` after the reference and the mirrors are
known: build the candidates and run the fallback loop over them. -/
def downloadFromCandidates {σ : Type} (fetch : Str → σ → (Str × Option GoError) × σ)
    (ref : Str) (mirrors : List Str) (s : σ) : (Str × Option GoError) × σ × List Str :=
  fallbackLoop fetch (buildGHCRReferences ref mirrors) none s

/-! ## The file system and the registry, as `fetchGHCRArtifact` sees them -/

/-- One byte of a file or of a stream. -/
abbrev Byte := Fin 256

/-- The regular files on disk: the content stored under each path. -/
abbrev FS := Str → Option (List Byte)

/-- The size reported by a successful `os.Stat(path)`; `none` when it fails. -/
def statSize (fs : FS) (path : Str) : Option Int :=
  (fs path).map fun content => (content.length : Int)

/-- The file after `data` is written at offset `off`: bytes before `off` stay (a gap
past the end is zero-filled), `data` overwrites what it covers, and the bytes
behind the written range stay. -/
def writeAt (content : List Byte) (off : Nat) (data : List Byte) : List Byte :=
  content.take off ++ List.replicate (off - content.length) 0 ++ data
    ++ content.drop (off + data.length)

/-- The store with `content` under `path`. -/
def FS.set (fs : FS) (path : Str) (content : Option (List Byte)) : FS :=
  fun p => if p = path then content else fs p

/-- What `os.OpenFile(path, O_CREATE|O_WRONLY, _)` leaves on disk: an absent file is
created empty, a present one keeps its bytes (the flags do not truncate it). -/
def FS.openCreate (fs : FS) (path : Str) : FS :=
  match fs path with
  | some _ => fs
  | none => fs.set path (some [])

/-- What `os.Rename(old, new)` leaves on disk. -/
def FS.rename (fs : FS) (old new : Str) : FS :=
  (fs.set new (fs old)).set old none

/-- An entry of the file listing of a registry artifact. -/
structure FileEntry where
  /-- The file name of the entry. -/
  Name : Str
  /-- The declared size of the entry in bytes. -/
  Size : Int

/-- A byte stream opened on an entry: the bytes it delivers, and the error that
ends it (`none` when it ends with `io.EOF`). -/
structure Stream where
  /-- The bytes read before the stream ends. -/
  data : List Byte
  /-- The read error that ends the stream, if any. -/
  err : Option GoError

/-- The downloader handle returned for a reference by the registry client. -/
structure Downloader where
  /-- The result of `dl.Files()`. -/
  files : List FileEntry
  /-- The result of `dl.ReaderAt(ctx, name, offset)`. -/
  readerAt : Str → Int → Except GoError Stream

/-- Everything outside the program that `fetchGHCRArtifact` calls: the registry
client library, `filepath.Join`, and the operating-system calls that can fail
for reasons the file contents do not determine. -/
structure Env where
  /-- The failure of `lib.NewRegistryApi` for a host, if any. -/
  newRegistryApi : Str → Option GoError
  /-- The result of `blobDownloader.New` for `(host, repo, tag)`. -/
  newDownloader : Str → Str → Str → Except GoError Downloader
  /-- The function `filepath.Join`. -/
  join : Str → Str → Str
  /-- The failure of `os.MkdirAll(filepath.Dir(dest), _)`, by `dest`. -/
  mkdirAll : Str → Option GoError
  /-- The failure of `os.OpenFile(temp, _, _)`, by path. -/
  openFile : Str → Option GoError
  /-- The failure of `out.Seek`, by path. -/
  seek : Str → Option GoError
  /-- The failure of a write of `io.Copy`: the bytes written before it, and the error. -/
  write : Str → Option (Nat × GoError)
  /-- The failure of `out.Sync`, by path. -/
  sync : Str → Option GoError
  /-- The failure of `out.Close`, by path. -/
  close : Str → Option GoError
  /-- The failure of `os.Rename(temp, dest)`, by the old path. -/
  rename : Str → Option GoError

/-! ## `fetchGHCRArtifact` -/

/-- The function `buildRegistryClient`: the `(host, repo, tag)` that the client and
the refspec are made of, or the error. -/
def buildRegistryClient (env : Env) (reference : Str) : Except GoError (Str × Str × Str) :=
  match parseRegistryReference reference with
  | (_, _, _, some err) => .error err
  | (host, repo, tag, none) =>
    match env.newRegistryApi host with
    | some err => .error err
    | none => .ok (host, repo, tag)

/-- Lines 82 to 88 of `fetchGHCRArtifact`: the resume offset `start`, from the result
of `os.Stat(temp)` and the size of the entry. -/
def resumeOffset (tempSize : Option Int) (entrySize : Int) : Int :=
  match tempSize with
  | some size => if size > entrySize then 0 else size
  | none => 0

/-- The call `io.Copy(io.MultiWriter(out, progress), reader)` with `out` positioned at
`start` in the file `temp`: the store afterwards and the error of the copy. -/
def ioCopy (env : Env) (fs : FS) (temp : Str) (start : Int) (reader : Stream) :
    FS × Option GoError :=
  let old := (fs temp).getD []
  match env.write temp with
  | some (n, err) =>
    if n < reader.data.length then
      (fs.set temp (some (writeAt old start.toNat (reader.data.take n))), some err)
    else
      (fs.set temp (some (writeAt old start.toNat reader.data)), reader.err)
  | none =>
    (fs.set temp (some (writeAt old start.toNat reader.data)), reader.err)

/-- The function `fetchGHCRArtifact`, on the store `fs`: the returned `(path, err)` and
the store it leaves. -/
def fetchGHCRArtifact (env : Env) (isoPath : Str) (reference : Str) (fs : FS) :
    (Str × Option GoError) × FS :=
  match buildRegistryClient env reference with
  | .error err => (([], some err), fs)
  | .ok (host, repo, tag) =>
  match env.newDownloader host repo tag with
  | .error err => (([], some err), fs)
  | .ok dl =>
  match dl.files with
  | [] => (([], some (GoError.new "GHCR package contains no files")), fs)
  | entry :: _ =>
    let dest := env.join isoPath entry.Name
    if statSize fs dest = some entry.Size then ((dest, none), fs)
    else
      let temp := dest ++ ".syn".toList
      let start := resumeOffset (statSize fs temp) entry.Size
      match env.mkdirAll dest with
      | some err => (([], some err), fs)
      | none =>
      match env.openFile temp with
      | some err => (([], some err), fs)
      | none =>
      let fs1 := fs.openCreate temp
      match env.seek temp with
      | some err => (([], some err), fs1)
      | none =>
      match dl.readerAt entry.Name start with
      | .error err => (([], some err), fs1)
      | .ok reader =>
      match ioCopy env fs1 temp start reader with
      | (fs2, some err) => (([], some err), fs2)
      | (fs2, none) =>
      match env.sync temp with
      | some err => (([], some err), fs2)
      | none =>
      match env.close temp with
      | some err => (([], some err), fs2)
      | none =>
      match env.rename temp with
      | some err => (([], some err), fs2)
      | none => ((dest, none), fs2.rename temp dest)

/-! ## `ghcrCredentials` -/

/-- The function `envDefault`, on the environment `getenv` (the value of `os.Getenv`,
empty for an unset variable). -/
def envDefault (getenv : String → Str) (key : String) (fallback : Str) : Str :=
  let val := trimSpace (getenv key)
  if val ≠ [] then val else fallback

/-- The function `ghcrCredentials`: the user name and the password for the registry. -/
def ghcrCredentials (getenv : String → Str) : Str × Str :=
  let user := envDefault getenv "GHCR_USERNAME" (envDefault getenv "GITHUB_ACTOR" [])
  let pass := envDefault getenv "GHCR_PASSWORD" (envDefault getenv "GITHUB_TOKEN" [])
  (user, pass)

/-! ## The percent of `reportGHCRProgress` -/

/-- The value of an `int64` expression whose exact result is `x`: reduced into the
range of `int64` as two's complement arithmetic does. -/
def wrapInt64 (x : Int) : Int := (x + 2 ^ 63) % 2 ^ 64 - 2 ^ 63

/-- The `percent` that a tick of `reportGHCRProgress` computes from `total`, `start` and
the loaded counter `written`: `curr := written + start` and then
`curr * 100 / (total + 1)` in `int64` arithmetic, the division truncating toward
zero.  The result `none` stands for the run-time panic of a division by zero. -/
def tickPercent (total start written : Int) : Option Int :=
  let curr := wrapInt64 (written + start)
  let divisor := wrapInt64 (total + 1)
  if divisor = 0 then none
  else some (wrapInt64 (Int.tdiv (wrapInt64 (curr * 100)) divisor))

/-! ## `downloadWindowsFromGHCR` -/

/-- The constant `defaultGHCRMirror`. -/
def defaultGHCRMirror : Str := "ghcr.1ms.run".toList

/-- The variable `defaultGHCRMirrors`. -/
def defaultGHCRMirrors : List Str := [defaultGHCRMirror]

/-- How the loop over the candidates ends: by the `return target, nil` inside it, or
by running off the end of the list with the value of `lastErr`. -/
inductive LoopExit where
  /-- The loop returned `target` with no error. -/
  | returned (target : Str)
  /-- The loop ended, with this value of `lastErr`. -/
  | finished (lastErr : Option GoError)
  deriving DecidableEq, Repr

/-- Lines 48 to 55 of `downloadWindowsFromGHCR`, the loop alone: how it ends, the state
reached, and the candidates on which `fetch` was invoked. -/
def candidateLoop {σ : Type} (fetch : Str → σ → (Str × Option GoError) × σ) :
    List Str → Option GoError → σ → LoopExit × σ × List Str
  | [], lastErr, s => (LoopExit.finished lastErr, s, [])
  | candidate :: rest, _, s =>
    match fetch candidate s with
    | ((target, none), s1) => (LoopExit.returned target, s1, [candidate])
    | ((_, some err), s1) =>
      let r := candidateLoop fetch rest (some err) s1
      (r.1, r.2.1, candidate :: r.2.2)

/-- Lines 56 to 59 of `downloadWindowsFromGHCR`: what the function returns after the
loop has ended in the given way. -/
def afterLoop : LoopExit → Str × Option GoError
  | LoopExit.returned target => (target, none)
  | LoopExit.finished none =>
    ([], some (GoError.wrap fallbackPrefix (GoError.new "no GHCR reference candidates")))
  | LoopExit.finished (some err) => ([], some (GoError.wrap fallbackPrefix err))

/-- The function `downloadWindowsFromGHCR`, given the result `refResult` of
`ghcrWindowsReference(version, edition)` and the value of `GHCRMirrorSelector`
(`none` when the variable is nil; a selector returns the selected mirrors, `none`
for a nil slice, and its error). -/
def downloadWindowsFromGHCR {σ : Type} (refResult : Str × Option GoError)
    (selector : Option (Str → Option (List Str) × Option GoError))
    (fetch : Str → σ → (Str × Option GoError) × σ) (s : σ) :
    (Str × Option GoError) × σ × List Str :=
  match refResult with
  | (_, some err) => (([], some err), s, [])
  | (ref, none) =>
    match selector with
    | none => downloadFromCandidates fetch ref defaultGHCRMirrors s
    | some select =>
      match select ref with
      | (_, some err) => (([], some err), s, [])
      | (none, none) => downloadFromCandidates fetch ref defaultGHCRMirrors s
      | (some selected, none) => downloadFromCandidates fetch ref selected s

/-! ## `promptWinFiles` and the downloads of `promptInstallWindows` -/

/-- The variable `winEditions`. -/
def winEditions : List Str :=
  ["Chinese (Simplified)".toList, "Chinese (Traditional)".toList,
   "English (United States)".toList, "English International".toList,
   "English Enterprise".toList]

/-- The variable `win7Editions`. -/
def win7Editions : List Str :=
  ["Chinese (Simplified) x64".toList, "English Enterprise".toList]

/-- The constant `Win11`. -/
def Win11 : Int := 0

/-- The constant `Win10`. -/
def Win10 : Int := 1

/-- The constant `Win7`. -/
def Win7 : Int := 2

/-- The struct `windowsInstallInfo`. -/
structure windowsInstallInfo where
  /-- The chosen or downloaded Windows ISO. -/
  WindowISO : Str
  /-- The chosen or downloaded VirtIO ISO. -/
  VirtIO : Str
  /-- The Windows version: 0 for 11, 1 for 10, 2 for 7. -/
  WinVersion : Int
  /-- The index of the edition. -/
  WinEdition : Int
  /-- The memory of the machine. -/
  Memory : Int
  /-- The cores of the machine. -/
  Cores : Int
  /-- The disk of the machine. -/
  Disk : Int
  /-- Whether only to download. -/
  DownloadOnly : Bool
  deriving DecidableEq, Repr

/-- Modelled from the spec: the checkpoint type `downloader.DownloadStatus`, declared
outside the files at hand, with the fields that the source reads. -/
structure DownloadStatus where
  /-- The destination path of the download. -/
  TargetFile : Str
  /-- The bytes written so far. -/
  Curr : Int
  /-- The expected final size. -/
  TotalSize : Int
  deriving DecidableEq, Repr

/-- The result `(idx, value, err)` of `promptui.Select.Run` on `items` when the user
makes the given choice: an error, or the index of an item and that item. -/
def runSelect (choice : Except GoError Nat) (items : List Str) : Int × Str × Option GoError :=
  match choice with
  | .error err => (0, [], some err)
  | .ok i => ((i : Int), items.getD i [], none)

/-- The loop of `findEditionIndex`, with the index `i` of the next element. -/
def findEditionIndexFrom (i : Int) : List Str → Str → Int
  | [], _ => -1
  | v :: vs, name => if v = name then i else findEditionIndexFrom (i + 1) vs name

/-- The function `findEditionIndex`. -/
def findEditionIndex (options : List Str) (name : Str) : Int :=
  findEditionIndexFrom 0 options name

/-- The local table `newOptions` of `promptWinFiles`: label and version. -/
def newOptions : List (Str × Int) :=
  [("全新下载 Windows11".toList, Win11), ("全新下载 Windows10".toList, Win10),
   ("全新下载 Windows7 (支持简体/英文)".toList, Win7)]

/-- The second half of `promptWinFiles`, from `if !selWin` on. -/
def promptSystem (systemChoice : Except GoError Nat) (info : windowsInstallInfo)
    (selWin : Bool) : windowsInstallInfo × Option GoError :=
  if !selWin then
    match runSelect systemChoice ["11".toList, "10".toList, "7".toList] with
    | (_, _, some err) => (info, some err)
    | (idx, _, none) =>
      let info := { info with WinVersion := idx }
      if info.WinVersion = Win7 ∧ info.WinEdition < 0 then
        ({ info with WinEdition := findEditionIndex win7Editions "Chinese (Simplified) x64".toList },
          none)
      else (info, none)
  else (info, none)

/-- Line 214 of `promptWinFiles`: `status.Curr * 100 / (status.TotalSize + 1)` in `int64`
arithmetic, the division truncating toward zero.  The result `none` stands for the
run-time panic of a division by zero. -/
def statusProgress (st : DownloadStatus) : Option Int :=
  let divisor := wrapInt64 (st.TotalSize + 1)
  if divisor = 0 then none
  else some (wrapInt64 (Int.tdiv (wrapInt64 (st.Curr * 100)) divisor))

/-- The function `promptWinFiles`: the `info` it leaves and the error it returns, for
the choices the user makes at the file prompt, at the edition prompt and at the
system prompt.  The text of the entry that continues a download, made by
`filepath.Base`, `strings.TrimSuffix` and `fmt.Sprintf` from the target file and the
progress, is given by `formatLabel`.  The result `none` stands for a run-time panic:
the division by zero of line 214, or an index out of range, which an index
returned by the prompt never causes. -/
def promptWinFiles (formatLabel : Str → Int → Str)
    (fileChoice editionChoice systemChoice : Except GoError Nat)
    (info : windowsInstallInfo) (status : Option DownloadStatus) (windows : List Str) :
    Option (windowsInstallInfo × Option GoError) :=
  let origWinLen : Int := windows.length
  let labelled : Option (List Str) := match status with
    | some st =>
      match statusProgress st with
      | none => none
      | some progress => some (windows ++ [formatLabel st.TargetFile progress])
    | none => some windows
  match labelled with
  | none => none
  | some windows =>
  let startNew : Int := windows.length
  let windows := windows ++ newOptions.map (·.1)
  match runSelect fileChoice windows with
  | (_, _, some err) => some (info, some err)
  | (idx, file, none) =>
    if idx < origWinLen then
      some (promptSystem systemChoice { info with WindowISO := file } false)
    else
      match status, decide (idx = origWinLen) with
      | some st, true =>
        some (promptSystem systemChoice { info with WindowISO := st.TargetFile } false)
      | _, _ =>
        if idx ≥ startNew then
          match newOptions.get? (idx - startNew).toNat with
          | none => none
          | some opt =>
            let info := { info with WinVersion := opt.2 }
            let editions := if opt.2 = Win7 then win7Editions else winEditions
            match runSelect editionChoice editions with
            | (_, _, some err) => some (info, some err)
            | (eidx, _, none) =>
              some (promptSystem systemChoice { info with WinEdition := eidx } true)
        else some (promptSystem systemChoice info false)

/-- The function `selectedEdition`. -/
def selectedEdition (info : windowsInstallInfo) : Str × Option GoError :=
  if info.WinEdition < 0 then ([], some (GoError.new "未选择 Windows 版本语言"))
  else if info.WinVersion = Win7 then
    if info.WinEdition ≥ (win7Editions.length : Int) then
      ([], some (GoError.errorf "无效的 Windows 7 版本选项: %d" (toString info.WinEdition).toList))
    else (win7Editions.getD info.WinEdition.toNat [], none)
  else if info.WinEdition ≥ (winEditions.length : Int) then
    ([], some (GoError.errorf "无效的 Windows 版本选项: %d" (toString info.WinEdition).toList))
  else (winEditions.getD info.WinEdition.toNat [], none)

/-- The condition of line 157 of `promptInstallWindows`, under which a Windows ISO is
downloaded afresh. -/
def wantsFreshDownload (info : windowsInstallInfo) : Bool :=
  decide (info.WinVersion ≥ 0) && decide (info.WinEdition ≥ 0)

/-- Lines 150 to 166 of `promptInstallWindows`: the two calls of
`vmdownloader.DownloadWindowsISO`, a function declared outside the files at hand
and given here as `download status version edition`. -/
def downloadWindows (download : Option DownloadStatus → Int → Str → Str × Option GoError)
    (info : windowsInstallInfo) (status : Option DownloadStatus) :
    windowsInstallInfo × Option GoError :=
  let continued : windowsInstallInfo × Option GoError :=
    match status with
    | some st =>
      if info.WindowISO = st.TargetFile then
        match download status (-1) [] with
        | (iso, none) => ({ info with WindowISO := iso }, none)
        | (iso, some err) => ({ info with WindowISO := iso }, some err)
      else (info, none)
    | none => (info, none)
  match continued with
  | (info, some err) => (info, some err)
  | (info, none) =>
    if wantsFreshDownload info then
      match selectedEdition info with
      | (_, some err) => (info, some err)
      | (editionName, none) =>
        match download status info.WinVersion editionName with
        | (iso, err) => ({ info with WindowISO := iso }, err)
    else (info, none)

/-- Lines 67 to 70 of `promptInstallWindows`: the `info` that `promptWinFiles` receives. -/
def initialInfo : windowsInstallInfo :=
  { WindowISO := [], VirtIO := [], WinVersion := -1, WinEdition := -1,
    Memory := 0, Cores := 0, Disk := 0, DownloadOnly := false }

/-! ## Vocabulary of the specification -/

/-- The segment of `s` before its first `c` (all of `s` when it has none). -/
def beforeFirst (c : Char) (s : Str) : Str := s.takeWhile (· != c)

/-- The remainder of `s` after its first `c` (empty when it has none). -/
def afterFirst (c : Char) (s : Str) : Str := (s.dropWhile (· != c)).drop 1

/-- The part of `s` after its last `c` (all of `s` when it has none). -/
def afterLast (c : Char) (s : Str) : Str := (beforeFirst c s.reverse).reverse

/-- The part of `s` before its last `c` (empty when it has none). -/
def beforeLast (c : Char) (s : Str) : Str := (afterFirst c s.reverse).reverse

/-- The grammar `host/repository:tag` on a trimmed reference, in the words of the
specification: a first `/` with a non-empty host before it, and in the remainder
a last `:` with a non-empty repository before it and a non-empty tag after it. -/
def WellFormed (t : Str) : Prop :=
  '/' ∈ t ∧ beforeFirst '/' t ≠ [] ∧ ':' ∈ afterFirst '/' t ∧
    beforeLast ':' (afterFirst '/' t) ≠ [] ∧ afterLast ':' (afterFirst '/' t) ≠ []

/-- The list with only the first occurrence of each element kept, in order. -/
def keepFirst : List Str → List Str
  | [] => []
  | x :: xs => x :: (keepFirst xs).filter (· != x)

/-- The mirror candidates in the words of the specification: the mirrors in the
caller's order, blank entries dropped, each substituted into `ref`. -/
def mirrorCandidates (ref : Str) (mirrors : List Str) : List Str :=
  (mirrors.filter (fun m => trimSpace m != [])).map (swapRegistryHost ref)

/-- The candidate list in the words of the specification: the first occurrence of
each mirror candidate, then `ref` when it is not among them. -/
def buildCandidatesSpec (ref : Str) (mirrors : List Str) : List Str :=
  let firsts := keepFirst (mirrorCandidates ref mirrors)
  if ref ∈ firsts then firsts else firsts ++ [ref]

/-- The state reached from `s` once `fetch` has run on each of `cs` in turn. -/
def stateAfter {σ : Type} (fetch : Str → σ → (Str × Option GoError) × σ) : List Str → σ → σ
  | [], s => s
  | c :: cs, s => stateAfter fetch cs (fetch c s).2

/-- Whether `fetch`, run on each of `cs` in turn from `s`, fails on every one. -/
def allFail {σ : Type} (fetch : Str → σ → (Str × Option GoError) × σ) : List Str → σ → Bool
  | [], _ => true
  | c :: cs, s => (fetch c s).1.2.isSome && allFail fetch cs (fetch c s).2

/-- The error kind MalformedReference: the errors that `parseRegistryReference` creates. -/
def isMalformedReference : GoError → Bool
  | .new msg => msg == "empty reference"
  | .errorf format _ =>
    format == "reference %q missing registry host" || format == "reference %q must include a tag"
  | _ => false

/-- The error kind FilesystemFailure: the errors of the operating-system calls. -/
def isFilesystemFailure : GoError → Bool
  | .pathError _ _ => true
  | _ => false

/-- The run of `fetchGHCRArtifact` on `reference` from the store `fs` reaches the copy
of the entry `entry`, whose content is `bytes`, and no call on the way fails: the
registry lists `entry` first, the destination is not already complete, the stream
opened at the resume offset delivers the bytes of the entry from that offset on
and ends without error, and no operating-system call fails. -/
structure CopyPath (env : Env) (isoPath reference : Str) (fs : FS) (entry : FileEntry)
    (bytes : List Byte) : Prop where
  /-- The reference parses and a downloader listing `entry` first is obtained. -/
  listed : ∃ host repo tag dl rest, buildRegistryClient env reference = .ok (host, repo, tag) ∧
    env.newDownloader host repo tag = .ok dl ∧ dl.files = entry :: rest ∧
    dl.readerAt entry.Name
        (resumeOffset (statSize fs (env.join isoPath entry.Name ++ ".syn".toList)) entry.Size)
      = .ok ⟨bytes.drop (resumeOffset
          (statSize fs (env.join isoPath entry.Name ++ ".syn".toList)) entry.Size).toNat, none⟩
  /-- The declared size of the entry is the length of its content. -/
  size : entry.Size = (bytes.length : Int)
  /-- The destination does not already hold a file of the size of the entry. -/
  fresh : statSize fs (env.join isoPath entry.Name) ≠ some entry.Size
  /-- The call of `os.MkdirAll` succeeds. -/
  mkdirAll : env.mkdirAll (env.join isoPath entry.Name) = none
  /-- The call of `os.OpenFile` succeeds. -/
  openFile : env.openFile (env.join isoPath entry.Name ++ ".syn".toList) = none
  /-- The call of `out.Seek` succeeds. -/
  seek : env.seek (env.join isoPath entry.Name ++ ".syn".toList) = none
  /-- No write of the copy fails. -/
  write : env.write (env.join isoPath entry.Name ++ ".syn".toList) = none
  /-- The call of `out.Sync` succeeds. -/
  sync : env.sync (env.join isoPath entry.Name ++ ".syn".toList) = none
  /-- The call of `out.Close` succeeds. -/
  close : env.close (env.join isoPath entry.Name ++ ".syn".toList) = none
  /-- The call of `os.Rename` succeeds. -/
  rename : env.rename (env.join isoPath entry.Name ++ ".syn".toList) = none

/-! ## Concrete inputs -/

/-- A downloader whose artifact is the one file `a.iso` with the three bytes `1 2 3`; a
stream opened at an offset delivers the bytes from that offset on. -/
def sampleDownloader : Downloader where
  files := [{ Name := "a.iso".toList, Size := 3 }]
  readerAt := fun _ off => .ok { data := ([1, 2, 3] : List Byte).drop off.toNat, err := none }

/-- An environment in which every registry serves `sampleDownloader` and no
operating-system call fails. -/
def sampleEnv : Env where
  newRegistryApi := fun _ => none
  newDownloader := fun _ _ _ => .ok sampleDownloader
  join := fun dir name => dir ++ '/' :: name
  mkdirAll := fun _ => none
  openFile := fun _ => none
  seek := fun _ => none
  write := fun _ => none
  sync := fun _ => none
  close := fun _ => none
  rename := fun _ => none

/-- A downloader whose artifact is the one file `b.iso`. -/
def otherDownloader : Downloader where
  files := [{ Name := "b.iso".toList, Size := 3 }]
  readerAt := fun _ off => .ok { data := ([4, 5, 6] : List Byte).drop off.toNat, err := none }

/-- An environment in which the mirror `m1.example` serves `otherDownloader`, every
other registry serves `sampleDownloader`, and the temporary file `/iso/b.iso.syn`
cannot be opened. -/
def faultyEnv : Env where
  newRegistryApi := fun _ => none
  newDownloader := fun host _ _ =>
    if host = "m1.example".toList then .ok otherDownloader else .ok sampleDownloader
  join := fun dir name => dir ++ '/' :: name
  mkdirAll := fun _ => none
  openFile := fun path =>
    if path = "/iso/b.iso.syn".toList then some (GoError.pathError "open" path) else none
  seek := fun _ => none
  write := fun _ => none
  sync := fun _ => none
  close := fun _ => none
  rename := fun _ => none

/-- A disk with no file. -/
def emptyDisk : FS := fun _ => none

/-- A disk whose only file is a stale five-byte `/iso/a.iso.syn`. -/
def staleDisk : FS := emptyDisk.set "/iso/a.iso.syn".toList (some [7, 7, 7, 8, 9])

/-- A fetch that fails on every candidate, with the candidate named in the error. -/
def failingFetch (c : Str) (s : Unit) : (Str × Option GoError) × Unit :=
  (([], some (GoError.errorf "pull %q failed" c)), s)

/-- An environment with `GHCR_USERNAME`, `GITHUB_ACTOR` and `GITHUB_TOKEN` set and
`GHCR_PASSWORD` unset. -/
def mixedEnvironment (key : String) : Str :=
  if key = "GHCR_USERNAME" then "alice".toList
  else if key = "GITHUB_ACTOR" then "bot".toList
  else if key = "GITHUB_TOKEN" then "tok".toList
  else []

/-- A `DownloadWindowsISO` that succeeds with the path `/iso/fresh.iso`. -/
def freshDownload (_ : Option DownloadStatus) (_ : Int) (_ : Str) : Str × Option GoError :=
  ("/iso/fresh.iso".toList, none)

/-- A text for the entry that continues a download. -/
def sampleLabel (target : Str) (_ : Int) : Str := "continue ".toList ++ target

set_option maxRecDepth 100000

/-! ## Lemmas on the string primitives -/

theorem beforeFirst_append (c : Char) (a b : Str) (h : c ∉ a) :
    beforeFirst c (a ++ c :: b) = a := by
  induction a with
  | nil => simp [beforeFirst]
  | cons x xs ih =>
    have hx : x ≠ c := fun e => h (by simp [e])
    have hxs : c ∉ xs := fun e => h (by simp [e])
    have := ih hxs
    simp only [beforeFirst] at this ⊢
    simp [List.takeWhile_cons, hx, this]

theorem afterFirst_append (c : Char) (a b : Str) (h : c ∉ a) :
    afterFirst c (a ++ c :: b) = b := by
  induction a with
  | nil => simp [afterFirst]
  | cons x xs ih =>
    have hx : x ≠ c := fun e => h (by simp [e])
    have hxs : c ∉ xs := fun e => h (by simp [e])
    have := ih hxs
    simp only [afterFirst] at this ⊢
    simp [List.dropWhile_cons, hx, this]

theorem afterLast_append (c : Char) (a b : Str) (h : c ∉ b) :
    afterLast c (a ++ c :: b) = b := by
  have hr : c ∉ b.reverse := by simpa using h
  have := beforeFirst_append c b.reverse a.reverse hr
  simp [afterLast, this]

theorem beforeLast_append (c : Char) (a b : Str) (h : c ∉ b) :
    beforeLast c (a ++ c :: b) = a := by
  have hr : c ∉ b.reverse := by simpa using h
  have := afterFirst_append c b.reverse a.reverse hr
  simp [beforeLast, this]

theorem beforeFirst_not_mem (c : Char) (s : Str) : c ∉ beforeFirst c s := by
  intro h
  have := List.mem_takeWhile_imp h
  simp at this

theorem afterLast_not_mem (c : Char) (s : Str) : c ∉ afterLast c s := by
  intro h
  exact beforeFirst_not_mem c s.reverse (by simpa [afterLast] using h)

theorem split_first (c : Char) (s : Str) (h : c ∈ s) :
    s = beforeFirst c s ++ c :: afterFirst c s := by
  induction s with
  | nil => simp at h
  | cons x xs ih =>
    by_cases hx : x = c
    · subst hx
      simp [beforeFirst, afterFirst]
    · have hxs : c ∈ xs := by
        rcases List.mem_cons.1 h with e | e
        · exact absurd e.symm hx
        · exact e
      have := ih hxs
      simp only [beforeFirst, afterFirst] at this ⊢
      simp only [List.takeWhile_cons, List.dropWhile_cons, bne_iff_ne, ne_eq, hx,
        not_false_eq_true, decide_True, if_true, List.cons_append, List.cons.injEq, true_and]
      exact this

theorem split_last (c : Char) (s : Str) (h : c ∈ s) :
    s = beforeLast c s ++ c :: afterLast c s := by
  have hr : c ∈ s.reverse := by simpa using h
  have := congrArg List.reverse (split_first c s.reverse hr)
  simpa [beforeLast, afterLast] using this

theorem indexByte_eq (s : Str) (c : Char) :
    indexByte s c = if c ∈ s then ((beforeFirst c s).length : Int) else -1 := by
  induction s with
  | nil => simp [indexByte]
  | cons x xs ih =>
    by_cases hx : x = c
    · subst hx
      simp [indexByte, beforeFirst]
    · have hcx : ¬ c = x := fun e => hx e.symm
      simp only [indexByte, hx, if_false, ih, List.mem_cons, hcx, false_or]
      by_cases hm : c ∈ xs
      · simp only [hm, if_true, beforeFirst]
        simp [List.takeWhile_cons, hx]
      · simp [hm]

theorem lastIndexByte_eq (s : Str) (c : Char) :
    lastIndexByte s c = if c ∈ s then ((beforeLast c s).length : Int) else -1 := by
  induction s with
  | nil => simp [lastIndexByte]
  | cons x xs ih =>
    simp only [lastIndexByte, ih]
    by_cases hm : c ∈ xs
    · have hsplit := split_last c xs hm
      have hcons : x :: xs = (x :: beforeLast c xs) ++ c :: afterLast c xs := by
        simp [← hsplit]
      have hb : beforeLast c (x :: xs) = x :: beforeLast c xs := by
        conv_lhs => rw [hcons]
        exact beforeLast_append c _ _ (afterLast_not_mem c xs)
      simp [hm, hb]
    · by_cases hx : x = c
      · subst hx
        have hb : beforeLast x (x :: xs) = [] := beforeLast_append x [] xs hm
        simp [hm, hb]
      · have hcx : ¬ c = x := fun e => hx e.symm
        simp [hm, hx, hcx]

theorem slice_first (c : Char) (s : Str) (h : c ∈ s) :
    sliceTo s (indexByte s c) = beforeFirst c s ∧
    sliceFrom s (indexByte s c + 1) = afterFirst c s := by
  have hs := split_first c s h
  have hi : indexByte s c = ((beforeFirst c s).length : Int) := by
    rw [indexByte_eq, if_pos h]
  have h1 : (((beforeFirst c s).length : Int) + 1).toNat = (beforeFirst c s).length + 1 := by
    omega
  rw [hi, sliceTo, sliceFrom, h1, Int.toNat_ofNat]
  generalize beforeFirst c s = a at hs ⊢
  generalize afterFirst c s = b at hs ⊢
  subst hs
  simp

theorem slice_last (c : Char) (s : Str) (h : c ∈ s) :
    sliceTo s (lastIndexByte s c) = beforeLast c s ∧
    sliceFrom s (lastIndexByte s c + 1) = afterLast c s := by
  have hs := split_last c s h
  have hi : lastIndexByte s c = ((beforeLast c s).length : Int) := by
    rw [lastIndexByte_eq, if_pos h]
  have h1 : (((beforeLast c s).length : Int) + 1).toNat = (beforeLast c s).length + 1 := by
    omega
  rw [hi, sliceTo, sliceFrom, h1, Int.toNat_ofNat]
  generalize beforeLast c s = a at hs ⊢
  generalize afterLast c s = b at hs ⊢
  subst hs
  simp

theorem parse_of_wellFormed (reference : Str) (h : WellFormed (trimSpace reference)) :
    parseRegistryReference reference =
      (beforeFirst '/' (trimSpace reference),
       beforeLast ':' (afterFirst '/' (trimSpace reference)),
       afterLast ':' (afterFirst '/' (trimSpace reference)), none) := by
  obtain ⟨hslash, hhost, hcolon, hrepo, htag⟩ := h
  have hne : trimSpace reference ≠ [] := by
    intro e
    rw [e] at hslash
    simp at hslash
  obtain ⟨hs1, hs2⟩ := slice_first '/' _ hslash
  have hi : indexByte (trimSpace reference) '/'
      = ((beforeFirst '/' (trimSpace reference)).length : Int) := by
    rw [indexByte_eq, if_pos hslash]
  have hpos : 0 < (beforeFirst '/' (trimSpace reference)).length :=
    List.length_pos.2 hhost
  obtain ⟨hl1, hl2⟩ := slice_last ':' _ hcolon
  have hj : lastIndexByte (afterFirst '/' (trimSpace reference)) ':'
      = ((beforeLast ':' (afterFirst '/' (trimSpace reference))).length : Int) := by
    rw [lastIndexByte_eq, if_pos hcolon]
  have hpos2 : 0 < (beforeLast ':' (afterFirst '/' (trimSpace reference))).length :=
    List.length_pos.2 hrepo
  have hpos3 : 0 < (afterLast ':' (afterFirst '/' (trimSpace reference))).length :=
    List.length_pos.2 htag
  have hlen := congrArg List.length (split_last ':' _ hcolon)
  simp only [List.length_append, List.length_cons] at hlen
  have hc1 : ¬ indexByte (trimSpace reference) '/' ≤ 0 := by omega
  have hc2 : ¬ (lastIndexByte (afterFirst '/' (trimSpace reference)) ':' ≤ 0 ∨
      lastIndexByte (afterFirst '/' (trimSpace reference)) ':'
        = ((afterFirst '/' (trimSpace reference)).length : Int) - 1) := by
    omega
  unfold parseRegistryReference
  simp only [hne, if_false, hc1, hs2, hc2, hs1, hl1, hl2]

theorem parse_of_not_wellFormed (reference : Str) (h : ¬ WellFormed (trimSpace reference)) :
    ∃ e, parseRegistryReference reference = ([], [], [], some e) := by
  unfold parseRegistryReference
  simp only
  split
  · exact ⟨_, rfl⟩
  · split
    · exact ⟨_, rfl⟩
    · rename_i hne hc1
      have hslash : '/' ∈ trimSpace reference := by
        by_contra hn
        rw [indexByte_eq, if_neg hn] at hc1
        omega
      obtain ⟨hs1, hs2⟩ := slice_first '/' _ hslash
      rw [hs2]
      split
      · exact ⟨_, rfl⟩
      · rename_i hc2
        exfalso
        apply h
        have hi : indexByte (trimSpace reference) '/'
            = ((beforeFirst '/' (trimSpace reference)).length : Int) := by
          rw [indexByte_eq, if_pos hslash]
        have hcolon : ':' ∈ afterFirst '/' (trimSpace reference) := by
          by_contra hn
          rw [lastIndexByte_eq, if_neg hn] at hc2
          omega
        have hj : lastIndexByte (afterFirst '/' (trimSpace reference)) ':'
            = ((beforeLast ':' (afterFirst '/' (trimSpace reference))).length : Int) := by
          rw [lastIndexByte_eq, if_pos hcolon]
        have hlen := congrArg List.length (split_last ':' _ hcolon)
        simp only [List.length_append, List.length_cons] at hlen
        refine ⟨hslash, ?_, hcolon, ?_, ?_⟩
        · intro e
          rw [e] at hi
          simp at hi
          omega
        · intro e
          rw [e] at hj
          simp at hj
          omega
        · intro e
          rw [e] at hlen
          simp at hlen
          omega

theorem trimSpace_dropWhile_reverse (s : Str) (h : ∀ c, s.head? = some c → isSpace c = false) :
    ∀ c, (s.reverse.dropWhile isSpace).reverse.head? = some c → isSpace c = false := by
  intro c hc
  cases s with
  | nil => simp at hc
  | cons x xs =>
    have hx : isSpace x = false := h x rfl
    have hmem : x ∈ (x :: xs).reverse := by simp
    have hstay : ∃ l, (x :: xs).reverse.dropWhile isSpace = l ++ [x] := by
      generalize hr : xs.reverse = r
      have : (x :: xs).reverse = r ++ [x] := by simp [hr]
      rw [this]
      clear this hr hmem h hc
      induction r with
      | nil => exact ⟨[], by simp [List.dropWhile_cons, hx]⟩
      | cons y ys ih =>
        by_cases hy : isSpace y = true
        · simpa [List.dropWhile_cons, hy] using ih
        · exact ⟨y :: ys, by simp [List.dropWhile_cons, hy]⟩
    obtain ⟨l, hl⟩ := hstay
    rw [hl] at hc
    simp at hc
    rw [← hc]
    exact hx

theorem dropWhile_head_not_space (s : Str) :
    ∀ c, (s.dropWhile isSpace).head? = some c → isSpace c = false := by
  intro c hc
  induction s with
  | nil => simp at hc
  | cons x xs ih =>
    by_cases hx : isSpace x = true
    · simp only [List.dropWhile_cons, hx, if_true] at hc
      exact ih hc
    · simp only [List.dropWhile_cons, hx] at hc
      simp at hc
      rw [← hc]
      simpa using hx

theorem dropWhile_eq_self_of_head (s : Str) (h : ∀ c, s.head? = some c → isSpace c = false) :
    s.dropWhile isSpace = s := by
  cases s with
  | nil => rfl
  | cons x xs =>
    have hx : isSpace x = false := h x rfl
    simp [List.dropWhile_cons, hx]

theorem trimSpace_idem (s : Str) : trimSpace (trimSpace s) = trimSpace s := by
  have hhead : ∀ c, (trimSpace s).head? = some c → isSpace c = false :=
    trimSpace_dropWhile_reverse _ (dropWhile_head_not_space s)
  have hlast : ∀ c, (trimSpace s).reverse.head? = some c → isSpace c = false := by
    intro c hc
    simp only [trimSpace, List.reverse_reverse] at hc
    exact dropWhile_head_not_space _ c hc
  have h1 : (trimSpace s).dropWhile isSpace = trimSpace s := dropWhile_eq_self_of_head _ hhead
  have h2 : (trimSpace s).reverse.dropWhile isSpace = (trimSpace s).reverse :=
    dropWhile_eq_self_of_head _ hlast
  generalize trimSpace s = t at h1 h2 ⊢
  simp only [trimSpace, h1, h2, List.reverse_reverse]

/-! ## Lemmas on the candidate builder -/

theorem mem_keepFirst (l : List Str) (x : Str) : x ∈ keepFirst l ↔ x ∈ l := by
  induction l with
  | nil => simp [keepFirst]
  | cons y ys ih =>
    simp only [keepFirst, List.mem_cons, List.mem_filter, ih, bne_iff_ne, ne_eq]
    constructor
    · rintro (h | ⟨h, _⟩)
      · exact Or.inl h
      · exact Or.inr h
    · intro h
      by_cases e : x = y
      · exact Or.inl e
      · rcases h with h | h
        · exact Or.inl h
        · exact Or.inr ⟨h, e⟩

theorem nodup_keepFirst (l : List Str) : (keepFirst l).Nodup := by
  induction l with
  | nil => simp [keepFirst]
  | cons y ys ih =>
    simp only [keepFirst, List.nodup_cons]
    refine ⟨?_, ih.filter _⟩
    simp [List.mem_filter]

theorem swapRegistryHost_trim (ref m : Str) (h : trimSpace m ≠ []) :
    swapRegistryHost ref (trimSpace m) = swapRegistryHost ref m := by
  have hm : m ≠ [] := by
    intro e
    apply h
    rw [e]
    rfl
  simp only [swapRegistryHost, h, hm, if_false, trimSpace_idem]

theorem foldl_buildStep (ref : Str) (mirrors : List Str) :
    ∀ refs seen : List Str, (∀ x, x ∈ seen ↔ x ∈ refs) →
      (mirrors.foldl (buildStep ref) (refs, seen)).1 =
          refs ++ (keepFirst (mirrorCandidates ref mirrors)).filter (fun x => decide (x ∉ refs)) ∧
      (∀ x, x ∈ (mirrors.foldl (buildStep ref) (refs, seen)).2 ↔
          x ∈ (mirrors.foldl (buildStep ref) (refs, seen)).1) := by
  induction mirrors with
  | nil =>
    intro refs seen hs
    exact ⟨by simp [mirrorCandidates, keepFirst], hs⟩
  | cons m ms ih =>
    intro refs seen hs
    simp only [List.foldl_cons]
    by_cases hb : trimSpace m = []
    · have hstep : buildStep ref (refs, seen) m = (refs, seen) := by
        simp [buildStep, hb]
      have hc : mirrorCandidates ref (m :: ms) = mirrorCandidates ref ms := by
        simp [mirrorCandidates, List.filter_cons, hb]
      rw [hstep, hc]
      exact ih refs seen hs
    · have hc : mirrorCandidates ref (m :: ms)
          = swapRegistryHost ref m :: mirrorCandidates ref ms := by
        simp [mirrorCandidates, List.filter_cons, hb]
      rw [hc]
      by_cases hseen : swapRegistryHost ref m ∈ seen
      · have hstep : buildStep ref (refs, seen) m = (refs, seen) := by
          simp [buildStep, hb, swapRegistryHost_trim ref m hb, hseen]
        rw [hstep]
        obtain ⟨h1, h2⟩ := ih refs seen hs
        refine ⟨?_, h2⟩
        rw [h1]
        have hin : swapRegistryHost ref m ∈ refs := (hs _).1 hseen
        simp only [keepFirst, List.filter_cons, hin, not_true_eq_false, decide_False,
          Bool.false_eq_true, if_false, List.filter_filter, List.append_cancel_left_eq]
        apply List.filter_congr
        intro x _
        by_cases hx : x ∈ refs
        · simp [hx]
        · have : x ≠ swapRegistryHost ref m := fun e => hx (e ▸ hin)
          simp [hx, this]
      · have hstep : buildStep ref (refs, seen) m
            = (refs ++ [swapRegistryHost ref m], swapRegistryHost ref m :: seen) := by
          simp [buildStep, hb, swapRegistryHost_trim ref m hb, hseen]
        rw [hstep]
        have hs2 : ∀ x, x ∈ swapRegistryHost ref m :: seen ↔ x ∈ refs ++ [swapRegistryHost ref m] := by
          intro x
          rw [List.mem_cons, List.mem_append, List.mem_singleton, hs x]
          exact or_comm
        obtain ⟨h1, h2⟩ := ih _ _ hs2
        refine ⟨?_, h2⟩
        rw [h1]
        have hin : swapRegistryHost ref m ∉ refs := fun h => hseen ((hs _).2 h)
        simp only [keepFirst, List.filter_cons, hin, not_false_eq_true, decide_True, if_true,
          List.filter_filter, List.append_assoc, List.singleton_append,
          List.append_cancel_left_eq, List.cons.injEq, true_and]
        apply List.filter_congr
        intro x _
        by_cases hx : x ∈ refs
        · simp [hx]
        · by_cases e : x = swapRegistryHost ref m
          · simp [hx, e]
          · simp [hx, e]

theorem buildGHCRReferences_eq_spec (ref : Str) (mirrors : List Str) :
    buildGHCRReferences ref mirrors = buildCandidatesSpec ref mirrors := by
  obtain ⟨h1, h2⟩ := foldl_buildStep ref mirrors [] [] (fun _ => Iff.rfl)
  have h3 : (mirrors.foldl (buildStep ref) ([], [])).1
      = keepFirst (mirrorCandidates ref mirrors) := by
    rw [h1]
    simp
  simp only [buildGHCRReferences, buildCandidatesSpec, h2 ref, h3]

/-! ## Lemmas on the fallback loop -/

theorem fallbackLoop_append {σ : Type} (fetch : Str → σ → (Str × Option GoError) × σ)
    (pre rest : List Str) :
    ∀ (lastErr : Option GoError) (s : σ), allFail fetch pre s = true →
      ∃ e', (pre = [] → e' = lastErr) ∧
        fallbackLoop fetch (pre ++ rest) lastErr s =
          ((fallbackLoop fetch rest e' (stateAfter fetch pre s)).1,
           (fallbackLoop fetch rest e' (stateAfter fetch pre s)).2.1,
           pre ++ (fallbackLoop fetch rest e' (stateAfter fetch pre s)).2.2) := by
  induction pre with
  | nil =>
    intro lastErr s _
    exact ⟨lastErr, fun _ => rfl, rfl⟩
  | cons c cs ih =>
    intro lastErr s h
    simp only [allFail, Bool.and_eq_true] at h
    obtain ⟨hc, hcs⟩ := h
    obtain ⟨err, herr⟩ := Option.isSome_iff_exists.1 hc
    obtain ⟨e', _, he'⟩ := ih (some err) (fetch c s).2 hcs
    refine ⟨e', fun h => by simp at h, ?_⟩
    have hf : fetch c s = (((fetch c s).1.1, some err), (fetch c s).2) := by
      rw [← herr]
    simp only [List.cons_append, stateAfter]
    rw [fallbackLoop, hf]
    simp only []
    rw [he']

/-! ## Lemmas on the copy path -/

theorem dest_ne_temp (dest : Str) : dest ≠ dest ++ ".syn".toList := by
  intro h
  have := congrArg List.length h
  simp at this

theorem openCreate_getD (fs : FS) (p : Str) :
    ((fs.openCreate p) p).getD [] = (fs p).getD [] := by
  unfold FS.openCreate
  cases h : fs p with
  | none => simp [FS.set]
  | some c => simp [h]

/-- On the copy path the function returns the destination with no error, and the
file renamed to the destination is the old temporary file with the delivered
bytes written at the resume offset. -/
theorem fetchGHCRArtifact_copy_path (env : Env) (isoPath reference : Str) (fs : FS)
    (entry : FileEntry) (bytes : List Byte) (h : CopyPath env isoPath reference fs entry bytes) :
    (fetchGHCRArtifact env isoPath reference fs).1 = (env.join isoPath entry.Name, none) ∧
    (fetchGHCRArtifact env isoPath reference fs).2 (env.join isoPath entry.Name)
      = some (writeAt ((fs (env.join isoPath entry.Name ++ ".syn".toList)).getD [])
          (resumeOffset (statSize fs (env.join isoPath entry.Name ++ ".syn".toList))
            entry.Size).toNat
          (bytes.drop (resumeOffset (statSize fs (env.join isoPath entry.Name ++ ".syn".toList))
            entry.Size).toNat)) := by
  obtain ⟨host, repo, tag, dl, rest, hclient, hdl, hfiles, hread⟩ := h.listed
  unfold fetchGHCRArtifact
  simp only [hclient, hdl, hfiles, h.fresh, if_false, h.mkdirAll, h.openFile, h.seek, hread,
    ioCopy, h.write, h.sync, h.close, h.rename, openCreate_getD]
  simp [FS.rename, FS.set, dest_ne_temp]

/-- The file that the write at the resume offset leaves: the old bytes followed by
the rest of the entry when the old file is not longer than the entry, and the
entry followed by the old bytes behind it when the old file is longer. -/
theorem writeAt_resume (old : Option (List Byte)) (bytes : List Byte) :
    ((old.getD []).length ≤ bytes.length →
      writeAt (old.getD [])
          (resumeOffset (old.map fun c => (c.length : Int)) bytes.length).toNat
          (bytes.drop (resumeOffset (old.map fun c => (c.length : Int)) bytes.length).toNat)
        = old.getD [] ++ bytes.drop (old.getD []).length) ∧
    (bytes.length < (old.getD []).length →
      writeAt (old.getD [])
          (resumeOffset (old.map fun c => (c.length : Int)) bytes.length).toNat
          (bytes.drop (resumeOffset (old.map fun c => (c.length : Int)) bytes.length).toNat)
        = bytes ++ (old.getD []).drop bytes.length) := by
  cases old with
  | none => simp [resumeOffset, writeAt]
  | some c =>
    simp only [Option.getD_some, Option.map_some', resumeOffset, gt_iff_lt]
    constructor
    · intro h
      have hlt : ¬ (bytes.length : Int) < (c.length : Int) := by omega
      rw [if_neg hlt, Int.toNat_ofNat]
      simp [writeAt]
    · intro h
      have hlt : (bytes.length : Int) < (c.length : Int) := by omega
      rw [if_pos hlt]
      simp [writeAt]

/-- On the copy path with a temporary file that is absent or not longer than the
entry, the destination gets a file of the size of the entry: the old temporary
bytes followed by the rest of the entry. -/
theorem fetchGHCRArtifact_copy_path_resumed (env : Env) (isoPath reference : Str) (fs : FS)
    (entry : FileEntry) (bytes : List Byte) (h : CopyPath env isoPath reference fs entry bytes)
    (hshort : ((fs (env.join isoPath entry.Name ++ ".syn".toList)).getD []).length
      ≤ bytes.length) :
    (fetchGHCRArtifact env isoPath reference fs).2 (env.join isoPath entry.Name)
      = some ((fs (env.join isoPath entry.Name ++ ".syn".toList)).getD []
          ++ bytes.drop ((fs (env.join isoPath entry.Name ++ ".syn".toList)).getD []).length) ∧
    statSize (fetchGHCRArtifact env isoPath reference fs).2 (env.join isoPath entry.Name)
      = some entry.Size := by
  have h1 := (fetchGHCRArtifact_copy_path env isoPath reference fs entry bytes h).2
  have h2 := (writeAt_resume (fs (env.join isoPath entry.Name ++ ".syn".toList)) bytes).1 hshort
  rw [h.size] at h1 ⊢
  simp only [statSize] at h1 ⊢
  rw [h2] at h1
  rw [h1]
  refine ⟨rfl, ?_⟩
  simp only [Option.map_some', List.length_append, List.length_drop, Option.some.injEq]
  omega

/-- On the copy path with a temporary file longer than the entry, the destination
gets the entry followed by the old temporary bytes behind it, a file of the size
of the old temporary file. -/
theorem fetchGHCRArtifact_copy_path_overlong (env : Env) (isoPath reference : Str) (fs : FS)
    (entry : FileEntry) (bytes : List Byte) (h : CopyPath env isoPath reference fs entry bytes)
    (hlong : bytes.length
      < ((fs (env.join isoPath entry.Name ++ ".syn".toList)).getD []).length) :
    (fetchGHCRArtifact env isoPath reference fs).2 (env.join isoPath entry.Name)
      = some (bytes
          ++ ((fs (env.join isoPath entry.Name ++ ".syn".toList)).getD []).drop bytes.length) := by
  have h1 := (fetchGHCRArtifact_copy_path env isoPath reference fs entry bytes h).2
  have h2 := (writeAt_resume (fs (env.join isoPath entry.Name ++ ".syn".toList)) bytes).2 hlong
  rw [h.size] at h1
  simp only [statSize] at h1
  rw [h2] at h1
  exact h1

/-- The sample run on the stale disk is a run on the copy path. -/
theorem copyPath_sample :
    CopyPath sampleEnv "/iso".toList "ghcr.io/x/y:tag".toList staleDisk
      { Name := "a.iso".toList, Size := 3 } [1, 2, 3] where
  listed := ⟨"ghcr.io".toList, "x/y".toList, "tag".toList, sampleDownloader, [],
    rfl, rfl, rfl, rfl⟩
  size := rfl
  fresh := by decide
  mkdirAll := rfl
  openFile := rfl
  seek := rfl
  write := rfl
  sync := rfl
  close := rfl
  rename := rfl

/-! ## The resumable copy path -/

/-- C1, evaluated on the code: with a stale five-byte `.syn` file on disk and a
three-byte remote entry, `fetchGHCRArtifact` chooses the resume offset 0, reads the
whole entry without error and returns the destination with no error, yet the file
renamed to the destination is five bytes long: the entry followed by the last two
bytes of the old temporary file. -/
theorem fetchGHCRArtifact_overlong_temp_kept :
    resumeOffset (statSize staleDisk "/iso/a.iso.syn".toList) 3 = 0 ∧
    (fetchGHCRArtifact sampleEnv "/iso".toList "ghcr.io/x/y:tag".toList staleDisk).1
      = ("/iso/a.iso".toList, none) ∧
    (fetchGHCRArtifact sampleEnv "/iso".toList "ghcr.io/x/y:tag".toList staleDisk).2
      "/iso/a.iso".toList = some [1, 2, 3, 8, 9] ∧
    statSize (fetchGHCRArtifact sampleEnv "/iso".toList "ghcr.io/x/y:tag".toList staleDisk).2
      "/iso/a.iso".toList ≠ some 3 := by
  decide

/-- C2: the resume offset is the size of the `.syn` file when the file exists and is
not longer than the entry, and 0 when it is absent or longer; for an entry size
that is not negative the offset lies between 0 and the entry size. -/
theorem resumeOffset_spec (fs : FS) (temp : Str) (entrySize : Int) (h : 0 ≤ entrySize) :
    resumeOffset (statSize fs temp) entrySize =
      (match fs temp with
       | some content => if (content.length : Int) ≤ entrySize then (content.length : Int) else 0
       | none => 0) ∧
    0 ≤ resumeOffset (statSize fs temp) entrySize ∧
    resumeOffset (statSize fs temp) entrySize ≤ entrySize := by
  unfold resumeOffset statSize
  cases hf : fs temp with
  | none => simp [h]
  | some content =>
    simp only [Option.map_some', gt_iff_lt]
    by_cases hle : (content.length : Int) ≤ entrySize
    · have hlt : ¬ entrySize < (content.length : Int) := by omega
      rw [if_neg hlt, if_pos hle]
      exact ⟨rfl, by omega, hle⟩
    · have hlt : entrySize < (content.length : Int) := by omega
      rw [if_pos hlt, if_neg hle]
      exact ⟨rfl, le_refl _, h⟩

/-- Witness of C2 on the stale five-byte temporary file and an entry of three bytes. -/
theorem resumeOffset_spec_witness :
    (0 : Int) ≤ 3 ∧
    0 ≤ resumeOffset (statSize staleDisk "/iso/a.iso.syn".toList) 3 ∧
    resumeOffset (statSize staleDisk "/iso/a.iso.syn".toList) 3 ≤ 3 :=
  ⟨by decide, (resumeOffset_spec staleDisk "/iso/a.iso.syn".toList 3 (by decide)).2⟩

/-! ## The candidate list -/

/-- C3 as stated fails: with the canonical host first among the mirrors, the last
candidate is the reference of the second mirror, not the canonical reference. -/
theorem buildGHCRReferences_last_counterexample :
    (buildGHCRReferences "ghcr.io/x/y:tag".toList
        ["ghcr.io".toList, "m1.example".toList]).getLast?
      = some "m1.example/x/y:tag".toList ∧
    (buildGHCRReferences "ghcr.io/x/y:tag".toList
        ["ghcr.io".toList, "m1.example".toList]).getLast?
      ≠ some "ghcr.io/x/y:tag".toList := by
  decide

/-- C3 amended: the canonical reference is always among the candidates, and it is
the last one exactly when no mirror candidate equals it or it is the last of the
first-seen mirror candidates. -/
theorem buildGHCRReferences_last_iff (ref : Str) (mirrors : List Str) :
    ref ∈ buildGHCRReferences ref mirrors ∧
    ((buildGHCRReferences ref mirrors).getLast? = some ref ↔
      (ref ∉ mirrorCandidates ref mirrors ∨
        (keepFirst (mirrorCandidates ref mirrors)).getLast? = some ref)) := by
  rw [buildGHCRReferences_eq_spec]
  simp only [buildCandidatesSpec]
  by_cases h : ref ∈ keepFirst (mirrorCandidates ref mirrors)
  · have h' : ref ∈ mirrorCandidates ref mirrors := (mem_keepFirst _ _).1 h
    simp only [h, if_true, true_and, h', not_true_eq_false, false_or]
  · have h' : ref ∉ mirrorCandidates ref mirrors := fun e => h ((mem_keepFirst _ _).2 e)
    simp [h, h']

/-- C4: no reference occurs twice in the candidate list. -/
theorem buildGHCRReferences_nodup (ref : Str) (mirrors : List Str) :
    (buildGHCRReferences ref mirrors).Nodup := by
  rw [buildGHCRReferences_eq_spec]
  simp only [buildCandidatesSpec]
  by_cases h : ref ∈ keepFirst (mirrorCandidates ref mirrors)
  · simp only [h, if_true]
    exact nodup_keepFirst _
  · simp only [h, if_false]
    rw [List.nodup_append]
    refine ⟨nodup_keepFirst _, List.nodup_singleton _, ?_⟩
    intro x hx hx'
    rw [List.mem_singleton] at hx'
    exact h (hx' ▸ hx)

/-- C5: the candidate list of the code is the construction of the specification
(non-blank mirrors in order, each substituted into the reference, first
occurrences only, then the reference unless already present), and on the
scenario of the specification it is the two references stated there. -/
theorem buildGHCRReferences_refines_spec :
    (∀ (ref : Str) (mirrors : List Str),
      buildGHCRReferences ref mirrors = buildCandidatesSpec ref mirrors) ∧
    buildGHCRReferences "ghcr.io/x/y:tag".toList
        ["m1.example".toList, [], "m1.example".toList, "ghcr.io".toList]
      = ["m1.example/x/y:tag".toList, "ghcr.io/x/y:tag".toList] :=
  ⟨buildGHCRReferences_eq_spec, by decide⟩

/-! ## The fallback loop -/

/-- C6: when the candidates before `c` all fail and the fetch of `c` succeeds, the
loop returns the path of `c` with no error, and the fetch was invoked on the
candidates up to `c` only, never on one after it. -/
theorem fallbackLoop_first_success {σ : Type} (fetch : Str → σ → (Str × Option GoError) × σ)
    (pre : List Str) (c : Str) (post : List Str) (s : σ)
    (hpre : allFail fetch pre s = true)
    (hc : (fetch c (stateAfter fetch pre s)).1.2 = none) :
    (fallbackLoop fetch (pre ++ c :: post) none s).1
      = ((fetch c (stateAfter fetch pre s)).1.1, none) ∧
    (fallbackLoop fetch (pre ++ c :: post) none s).2.2 = pre ++ [c] := by
  obtain ⟨e', _, h⟩ := fallbackLoop_append fetch pre (c :: post) none s hpre
  have hf : fetch c (stateAfter fetch pre s)
      = (((fetch c (stateAfter fetch pre s)).1.1, none), (fetch c (stateAfter fetch pre s)).2) := by
    rw [← hc]
  have hl : fallbackLoop fetch (c :: post) e' (stateAfter fetch pre s)
      = (((fetch c (stateAfter fetch pre s)).1.1, none),
          (fetch c (stateAfter fetch pre s)).2, [c]) := by
    rw [fallbackLoop, hf]
  rw [h, hl]
  exact ⟨rfl, rfl⟩

/-- Witness of C6: the malformed first candidate fails, the second candidate is
fetched from the sample registry, and the third is never tried. -/
theorem fallbackLoop_first_success_witness :
    (fallbackLoop (fetchGHCRArtifact sampleEnv "/iso".toList)
        (["/m/x/y:tag".toList] ++ "m1.example/x/y:tag".toList :: ["ghcr.io/x/y:tag".toList])
        none emptyDisk).1
      = ((fetchGHCRArtifact sampleEnv "/iso".toList "m1.example/x/y:tag".toList
          (stateAfter (fetchGHCRArtifact sampleEnv "/iso".toList)
            ["/m/x/y:tag".toList] emptyDisk)).1.1, none) ∧
    (fallbackLoop (fetchGHCRArtifact sampleEnv "/iso".toList)
        (["/m/x/y:tag".toList] ++ "m1.example/x/y:tag".toList :: ["ghcr.io/x/y:tag".toList])
        none emptyDisk).2.2
      = ["/m/x/y:tag".toList] ++ ["m1.example/x/y:tag".toList] :=
  fallbackLoop_first_success (fetchGHCRArtifact sampleEnv "/iso".toList)
    ["/m/x/y:tag".toList] "m1.example/x/y:tag".toList ["ghcr.io/x/y:tag".toList] emptyDisk
    (by decide) (by decide)

/-- C7: when every candidate of a non-empty list fails, the loop returns the empty
path and the error of the last candidate wrapped with the prefix
`GHCR fallback failed: `; the errors of the earlier candidates are not in it. -/
theorem fallbackLoop_all_fail {σ : Type} (fetch : Str → σ → (Str × Option GoError) × σ)
    (pre : List Str) (c : Str) (s : σ) (e : GoError)
    (hpre : allFail fetch pre s = true)
    (hc : (fetch c (stateAfter fetch pre s)).1.2 = some e) :
    (fallbackLoop fetch (pre ++ [c]) none s).1
      = ([], some (GoError.wrap "GHCR fallback failed: " e)) := by
  obtain ⟨e', _, h⟩ := fallbackLoop_append fetch pre [c] none s hpre
  have hf : fetch c (stateAfter fetch pre s)
      = (((fetch c (stateAfter fetch pre s)).1.1, some e), (fetch c (stateAfter fetch pre s)).2) := by
    rw [← hc]
  have hl : (fallbackLoop fetch [c] e' (stateAfter fetch pre s)).1
      = ([], some (GoError.wrap "GHCR fallback failed: " e)) := by
    rw [fallbackLoop, hf]
    rfl
  rw [h, hl]

/-- Witness of C7: three failing candidates, and only the error of the third is wrapped. -/
theorem fallbackLoop_all_fail_witness :
    (fallbackLoop failingFetch (["m1/x/y:tag".toList, "m2/x/y:tag".toList]
        ++ ["ghcr.io/x/y:tag".toList]) none ()).1
      = ([], some (GoError.wrap "GHCR fallback failed: "
          (GoError.errorf "pull %q failed" "ghcr.io/x/y:tag".toList))) :=
  fallbackLoop_all_fail failingFetch ["m1/x/y:tag".toList, "m2/x/y:tag".toList]
    "ghcr.io/x/y:tag".toList () _ (by decide) (by decide)

/-- C8 as stated fails.  First run: the first candidate is malformed, its fetch fails
with the malformed-reference error of `parseRegistryReference`, and the loop still
invokes the fetch on the next candidate and returns the path of that candidate
with no error.  Second run: the fetch of the first candidate fails because its
temporary file cannot be opened, a filesystem error, and again the loop fetches
the next candidate and returns its path. -/
theorem fallbackLoop_abort_counterexample :
    (fetchGHCRArtifact sampleEnv "/iso".toList "/m/x/y:tag".toList emptyDisk).1
      = ([], some (GoError.errorf "reference %q missing registry host" "/m/x/y:tag".toList)) ∧
    isMalformedReference
      (GoError.errorf "reference %q missing registry host" "/m/x/y:tag".toList) = true ∧
    (fallbackLoop (fetchGHCRArtifact sampleEnv "/iso".toList)
        ["/m/x/y:tag".toList, "ghcr.io/x/y:tag".toList] none emptyDisk).1
      = ("/iso/a.iso".toList, none) ∧
    (fallbackLoop (fetchGHCRArtifact sampleEnv "/iso".toList)
        ["/m/x/y:tag".toList, "ghcr.io/x/y:tag".toList] none emptyDisk).2.2
      = ["/m/x/y:tag".toList, "ghcr.io/x/y:tag".toList] ∧
    (fetchGHCRArtifact faultyEnv "/iso".toList "m1.example/x/y:tag".toList emptyDisk).1
      = ([], some (GoError.pathError "open" "/iso/b.iso.syn".toList)) ∧
    isFilesystemFailure (GoError.pathError "open" "/iso/b.iso.syn".toList) = true ∧
    (fallbackLoop (fetchGHCRArtifact faultyEnv "/iso".toList)
        ["m1.example/x/y:tag".toList, "ghcr.io/x/y:tag".toList] none emptyDisk).1
      = ("/iso/a.iso".toList, none) ∧
    (fallbackLoop (fetchGHCRArtifact faultyEnv "/iso".toList)
        ["m1.example/x/y:tag".toList, "ghcr.io/x/y:tag".toList] none emptyDisk).2.2
      = ["m1.example/x/y:tag".toList, "ghcr.io/x/y:tag".toList] := by
  decide

/-- C8 amended: a candidate that fails, whatever the kind of its error (filesystem
and malformed-reference errors included), does not end the loop: the loop goes
on with the candidates after it, keeping the error as the last error, and the
fetch is invoked on them as if the loop had started there. -/
theorem fallbackLoop_continues_after_failure {σ : Type}
    (fetch : Str → σ → (Str × Option GoError) × σ)
    (pre : List Str) (c : Str) (post : List Str) (s : σ) (e : GoError)
    (hpre : allFail fetch pre s = true)
    (hc : (fetch c (stateAfter fetch pre s)).1.2 = some e) :
    (fallbackLoop fetch (pre ++ c :: post) none s).1
      = (fallbackLoop fetch post (some e) (fetch c (stateAfter fetch pre s)).2).1 ∧
    (fallbackLoop fetch (pre ++ c :: post) none s).2.2
      = pre ++ c :: (fallbackLoop fetch post (some e) (fetch c (stateAfter fetch pre s)).2).2.2 := by
  obtain ⟨e', _, h⟩ := fallbackLoop_append fetch pre (c :: post) none s hpre
  have hf : fetch c (stateAfter fetch pre s)
      = (((fetch c (stateAfter fetch pre s)).1.1, some e), (fetch c (stateAfter fetch pre s)).2) := by
    rw [← hc]
  have hl : fallbackLoop fetch (c :: post) e' (stateAfter fetch pre s)
      = ((fallbackLoop fetch post (some e) (fetch c (stateAfter fetch pre s)).2).1,
         (fallbackLoop fetch post (some e) (fetch c (stateAfter fetch pre s)).2).2.1,
         c :: (fallbackLoop fetch post (some e) (fetch c (stateAfter fetch pre s)).2).2.2) := by
    rw [fallbackLoop, hf]
  rw [h, hl]
  exact ⟨rfl, rfl⟩

/-- Witness of C8 amended: after the malformed first candidate the loop runs on the
canonical reference. -/
theorem fallbackLoop_continues_after_failure_witness :
    (fallbackLoop (fetchGHCRArtifact sampleEnv "/iso".toList)
        ([] ++ "/m/x/y:tag".toList :: ["ghcr.io/x/y:tag".toList]) none emptyDisk).2.2
      = [] ++ "/m/x/y:tag".toList ::
          (fallbackLoop (fetchGHCRArtifact sampleEnv "/iso".toList) ["ghcr.io/x/y:tag".toList]
            (some (GoError.errorf "reference %q missing registry host" "/m/x/y:tag".toList))
            (fetchGHCRArtifact sampleEnv "/iso".toList "/m/x/y:tag".toList
              (stateAfter (fetchGHCRArtifact sampleEnv "/iso".toList) [] emptyDisk)).2).2.2 :=
  (fallbackLoop_continues_after_failure (fetchGHCRArtifact sampleEnv "/iso".toList)
    [] "/m/x/y:tag".toList ["ghcr.io/x/y:tag".toList] emptyDisk _ (by decide) (by decide)).2

/-! ## The reference parser -/

/-- C9: when `parseRegistryReference` succeeds with `(host, repo, tag)`, the three are
non-empty, `host` has no `/`, `tag` has no `:`, `host/repo:tag` is the trimmed input,
`host` is the segment before the first `/` and `tag` the part after the last `:` of
the remainder; and `ghcr.io/kspeeder/win11x64:cn_simplified` parses to `ghcr.io`,
`kspeeder/win11x64`, `cn_simplified`. -/
theorem parseRegistryReference_success_shape :
    (∀ reference host repo tag : Str,
      parseRegistryReference reference = (host, repo, tag, none) →
        host ≠ [] ∧ repo ≠ [] ∧ tag ≠ [] ∧ '/' ∉ host ∧ ':' ∉ tag ∧
        host ++ "/".toList ++ repo ++ ":".toList ++ tag = trimSpace reference ∧
        host = beforeFirst '/' (trimSpace reference) ∧
        tag = afterLast ':' (afterFirst '/' (trimSpace reference))) ∧
    parseRegistryReference "ghcr.io/kspeeder/win11x64:cn_simplified".toList
      = ("ghcr.io".toList, "kspeeder/win11x64".toList, "cn_simplified".toList, none) := by
  refine ⟨?_, by decide⟩
  intro reference host repo tag h
  by_cases hw : WellFormed (trimSpace reference)
  · rw [parse_of_wellFormed reference hw] at h
    simp only [Prod.mk.injEq, and_true] at h
    obtain ⟨hh, hr, ht⟩ := h
    obtain ⟨hslash, hhost, hcolon, hrepo, htag⟩ := hw
    subst hh hr ht
    refine ⟨hhost, hrepo, htag, beforeFirst_not_mem _ _, afterLast_not_mem _ _, ?_, rfl, rfl⟩
    have h1 := split_first '/' _ hslash
    have h2 := split_last ':' _ hcolon
    conv_rhs => rw [h1, h2]
    simp
  · obtain ⟨e, he⟩ := parse_of_not_wellFormed reference hw
    rw [he] at h
    simp at h

/-- Witness of C9 on a reference with surrounding blanks. -/
theorem parseRegistryReference_success_shape_witness :
    "ghcr.io".toList ++ "/".toList ++ "x/y".toList ++ ":".toList ++ "tag".toList
      = trimSpace " ghcr.io/x/y:tag ".toList :=
  (parseRegistryReference_success_shape.1 " ghcr.io/x/y:tag ".toList
    "ghcr.io".toList "x/y".toList "tag".toList (by decide)).2.2.2.2.2.1

/-- C10: `parseRegistryReference` returns an error exactly when the trimmed reference
has no `/`, or nothing before its first `/`, or no `:` in the remainder after that
`/`, or nothing before the last `:` of the remainder, or nothing after it; with an
error the three components are empty; and `ghcr.io/kspeeder/win11x64` fails. -/
theorem parseRegistryReference_error_iff :
    (∀ reference : Str,
      ((parseRegistryReference reference).2.2.2 ≠ none ↔
        ('/' ∉ trimSpace reference ∨
         beforeFirst '/' (trimSpace reference) = [] ∨
         ':' ∉ afterFirst '/' (trimSpace reference) ∨
         beforeLast ':' (afterFirst '/' (trimSpace reference)) = [] ∨
         afterLast ':' (afterFirst '/' (trimSpace reference)) = [])) ∧
      ((parseRegistryReference reference).2.2.2 ≠ none →
        (parseRegistryReference reference).1 = [] ∧
        (parseRegistryReference reference).2.1 = [] ∧
        (parseRegistryReference reference).2.2.1 = [])) ∧
    (parseRegistryReference "ghcr.io/kspeeder/win11x64".toList).2.2.2 ≠ none := by
  refine ⟨?_, by decide⟩
  intro reference
  by_cases hw : WellFormed (trimSpace reference)
  · rw [parse_of_wellFormed reference hw]
    obtain ⟨hslash, hhost, hcolon, hrepo, htag⟩ := hw
    simp [hslash, hhost, hcolon, hrepo, htag]
  · obtain ⟨e, he⟩ := parse_of_not_wellFormed reference hw
    rw [he]
    refine ⟨⟨fun _ => ?_, fun _ => by simp⟩, fun _ => ⟨rfl, rfl, rfl⟩⟩
    by_contra hn
    apply hw
    simp only [not_or] at hn
    obtain ⟨h1, h2, h3, h4, h5⟩ := hn
    exact ⟨not_not.1 h1, h2, not_not.1 h3, h4, h5⟩

/-! ## Host substitution -/

theorem trimSpace_head_not_space (s : Str) :
    ∀ c, (trimSpace s).head? = some c → isSpace c = false :=
  trimSpace_dropWhile_reverse _ (dropWhile_head_not_space s)

theorem trimSpace_last_not_space (s : Str) :
    ∀ c, (trimSpace s).reverse.head? = some c → isSpace c = false := by
  intro c hc
  simp only [trimSpace, List.reverse_reverse] at hc
  exact dropWhile_head_not_space _ c hc

theorem trimSpace_eq_self (s : Str) (hh : ∀ c, s.head? = some c → isSpace c = false)
    (hl : ∀ c, s.reverse.head? = some c → isSpace c = false) : trimSpace s = s := by
  have h1 : s.dropWhile isSpace = s := dropWhile_eq_self_of_head _ hh
  have h2 : s.reverse.dropWhile isSpace = s.reverse := dropWhile_eq_self_of_head _ hl
  simp only [trimSpace, h1, h2, List.reverse_reverse]

theorem parse_ok_decomp (reference h r t : Str)
    (hp : parseRegistryReference reference = (h, r, t, none)) :
    trimSpace reference = h ++ '/' :: r ++ ':' :: t ∧ h ≠ [] ∧ r ≠ [] ∧ t ≠ [] ∧
      '/' ∉ h ∧ ':' ∉ t := by
  by_cases hw : WellFormed (trimSpace reference)
  · rw [parse_of_wellFormed reference hw] at hp
    simp only [Prod.mk.injEq, and_true] at hp
    obtain ⟨hh, hr, ht⟩ := hp
    obtain ⟨hslash, hhost, hcolon, hrepo, htag⟩ := hw
    subst hh hr ht
    refine ⟨?_, hhost, hrepo, htag, beforeFirst_not_mem _ _, afterLast_not_mem _ _⟩
    have h1 := split_first '/' _ hslash
    have h2 := split_last ':' _ hcolon
    conv_lhs => rw [h1, h2]
    simp
  · obtain ⟨e, he⟩ := parse_of_not_wellFormed reference hw
    rw [he] at hp
    simp at hp

theorem parse_of_decomp (reference h r t : Str)
    (hs : trimSpace reference = h ++ '/' :: r ++ ':' :: t) (hh : h ≠ []) (hr : r ≠ [])
    (ht : t ≠ []) (hslash : '/' ∉ h) (hcolon : ':' ∉ t) :
    parseRegistryReference reference = (h, r, t, none) := by
  have hs' : trimSpace reference = h ++ '/' :: (r ++ ':' :: t) := by
    rw [hs]
    simp
  have hb : beforeFirst '/' (trimSpace reference) = h := by
    rw [hs']
    exact beforeFirst_append '/' h _ hslash
  have ha : afterFirst '/' (trimSpace reference) = r ++ ':' :: t := by
    rw [hs']
    exact afterFirst_append '/' h _ hslash
  have hw : WellFormed (trimSpace reference) := by
    refine ⟨?_, ?_, ?_, ?_, ?_⟩
    · rw [hs']
      simp
    · rw [hb]
      exact hh
    · rw [ha]
      simp
    · rw [ha, beforeLast_append ':' r t hcolon]
      exact hr
    · rw [ha, afterLast_append ':' r t hcolon]
      exact ht
  rw [parse_of_wellFormed reference hw, hb, ha, beforeLast_append ':' r t hcolon,
    afterLast_append ':' r t hcolon]

theorem sprintfRef_trimmed (host r t reference h : Str)
    (hhost : ∀ c, host.head? = some c → isSpace c = false) (hne : host ≠ []) (ht : t ≠ [])
    (hs : trimSpace reference = h ++ '/' :: r ++ ':' :: t) :
    trimSpace (sprintfRef host r t) = sprintfRef host r t := by
  apply trimSpace_eq_self
  · intro c hc
    apply hhost c
    cases host with
    | nil => exact absurd rfl hne
    | cons x xs => simpa [sprintfRef] using hc
  · intro c hc
    apply trimSpace_last_not_space reference c
    rw [hs]
    obtain ⟨y, ys, hy⟩ : ∃ y ys, t.reverse = y :: ys := by
      cases hrev : t.reverse with
      | nil => exact absurd (List.reverse_eq_nil_iff.1 hrev) ht
      | cons y ys => exact ⟨y, ys, rfl⟩
    simp only [sprintfRef, List.reverse_append, List.reverse_cons, hy, List.append_assoc,
      List.cons_append, List.head?_cons] at hc ⊢
    exact hc

/-- C11 as stated fails: the new host ` m1` is not empty and has no `/`, and the
substituted reference parses to the host `m1`, not to ` m1`. -/
theorem swapRegistryHost_host_counterexample :
    " m1".toList ≠ [] ∧ '/' ∉ " m1".toList ∧
    parseRegistryReference "ghcr.io/x/y:tag".toList
      = ("ghcr.io".toList, "x/y".toList, "tag".toList, none) ∧
    swapRegistryHost "ghcr.io/x/y:tag".toList " m1".toList = "m1/x/y:tag".toList ∧
    parseRegistryReference (swapRegistryHost "ghcr.io/x/y:tag".toList " m1".toList)
      ≠ (" m1".toList, "x/y".toList, "tag".toList, none) := by
  decide

/-- C11 amended: for a reference that parses to `(h, r, t)` and a new host whose
trimmed form is not empty and has no `/`, the substituted reference parses to the
trimmed new host with the same `r` and `t`; and for the empty new host the
reference is returned unchanged. -/
theorem swapRegistryHost_parses (reference h r t newHost : Str)
    (hp : parseRegistryReference reference = (h, r, t, none))
    (hne : trimSpace newHost ≠ []) (hslash : '/' ∉ trimSpace newHost) :
    parseRegistryReference (swapRegistryHost reference newHost)
      = (trimSpace newHost, r, t, none) ∧
    swapRegistryHost reference [] = reference := by
  refine ⟨?_, by simp [swapRegistryHost]⟩
  have hm : newHost ≠ [] := by
    intro e
    apply hne
    rw [e]
    rfl
  obtain ⟨hs, hh, hr, ht, _, hcolon⟩ := parse_ok_decomp reference h r t hp
  simp only [swapRegistryHost, hm, if_false, hp]
  by_cases he : h = trimSpace newHost
  · rw [if_pos he, hp, he]
  · rw [if_neg he]
    apply parse_of_decomp _ _ _ _ _ hne hr ht hslash hcolon
    rw [sprintfRef_trimmed (trimSpace newHost) r t reference h
      (trimSpace_head_not_space newHost) hne ht hs]
    simp [sprintfRef]

/-- Witness of C11 amended: the mirror host ` m1 ` substituted into `ghcr.io/x/y:tag`. -/
theorem swapRegistryHost_parses_witness :
    parseRegistryReference (swapRegistryHost "ghcr.io/x/y:tag".toList " m1 ".toList)
      = (trimSpace " m1 ".toList, "x/y".toList, "tag".toList, none) :=
  (swapRegistryHost_parses "ghcr.io/x/y:tag".toList "ghcr.io".toList "x/y".toList
    "tag".toList " m1 ".toList (by decide) (by decide) (by decide)).1

/-! ## Credentials -/

/-- C12 as stated fails: with `GHCR_USERNAME` set and `GHCR_PASSWORD` unset, the user
name comes from the explicit pair and the password from the CI pair; the result
is neither the explicit pair nor the CI pair. -/
theorem ghcrCredentials_mixed_counterexample :
    ghcrCredentials mixedEnvironment = ("alice".toList, "tok".toList) ∧
    ghcrCredentials mixedEnvironment
      ≠ (trimSpace (mixedEnvironment "GHCR_USERNAME"), trimSpace (mixedEnvironment "GHCR_PASSWORD")) ∧
    ghcrCredentials mixedEnvironment
      ≠ (trimSpace (mixedEnvironment "GITHUB_ACTOR"), trimSpace (mixedEnvironment "GITHUB_TOKEN")) := by
  decide

/-- C12 amended: each component is resolved on its own.  The user name is the trimmed
`GHCR_USERNAME` when that is not blank and the trimmed `GITHUB_ACTOR` otherwise; the
password is the trimmed `GHCR_PASSWORD` when that is not blank and the trimmed
`GITHUB_TOKEN` otherwise.  So the result is the trimmed explicit pair when both
explicit variables are set, the trimmed CI pair when neither is, and two empty
strings when all four are blank. -/
theorem ghcrCredentials_per_variable (getenv : String → Str) :
    (ghcrCredentials getenv).1
      = (if trimSpace (getenv "GHCR_USERNAME") ≠ [] then trimSpace (getenv "GHCR_USERNAME")
         else trimSpace (getenv "GITHUB_ACTOR")) ∧
    (ghcrCredentials getenv).2
      = (if trimSpace (getenv "GHCR_PASSWORD") ≠ [] then trimSpace (getenv "GHCR_PASSWORD")
         else trimSpace (getenv "GITHUB_TOKEN")) ∧
    (trimSpace (getenv "GHCR_USERNAME") ≠ [] → trimSpace (getenv "GHCR_PASSWORD") ≠ [] →
      ghcrCredentials getenv
        = (trimSpace (getenv "GHCR_USERNAME"), trimSpace (getenv "GHCR_PASSWORD"))) ∧
    (trimSpace (getenv "GHCR_USERNAME") = [] → trimSpace (getenv "GHCR_PASSWORD") = [] →
      ghcrCredentials getenv
        = (trimSpace (getenv "GITHUB_ACTOR"), trimSpace (getenv "GITHUB_TOKEN"))) ∧
    (trimSpace (getenv "GHCR_USERNAME") = [] → trimSpace (getenv "GHCR_PASSWORD") = [] →
      trimSpace (getenv "GITHUB_ACTOR") = [] → trimSpace (getenv "GITHUB_TOKEN") = [] →
      ghcrCredentials getenv = ([], [])) := by
  have hd : ∀ key : String, envDefault getenv key [] = trimSpace (getenv key) := by
    intro key
    unfold envDefault
    by_cases h : trimSpace (getenv key) = []
    · simp [h]
    · simp [h]
  have hu : (ghcrCredentials getenv).1
      = (if trimSpace (getenv "GHCR_USERNAME") ≠ [] then trimSpace (getenv "GHCR_USERNAME")
         else trimSpace (getenv "GITHUB_ACTOR")) := by
    simp only [ghcrCredentials, hd]
    rfl
  have hpw : (ghcrCredentials getenv).2
      = (if trimSpace (getenv "GHCR_PASSWORD") ≠ [] then trimSpace (getenv "GHCR_PASSWORD")
         else trimSpace (getenv "GITHUB_TOKEN")) := by
    simp only [ghcrCredentials, hd]
    rfl
  refine ⟨hu, hpw, ?_, ?_, ?_⟩
  · intro h1 h2
    apply Prod.ext
    · rw [hu, if_pos h1]
    · rw [hpw, if_pos h2]
  · intro h1 h2
    apply Prod.ext
    · rw [hu, if_neg (not_not.2 h1)]
    · rw [hpw, if_neg (not_not.2 h2)]
  · intro h1 h2 h3 h4
    apply Prod.ext
    · rw [hu, if_neg (not_not.2 h1), h3]
    · rw [hpw, if_neg (not_not.2 h2), h4]

/-! ## The progress percent -/

theorem wrapInt64_of_range (x : Int) (h1 : -2 ^ 63 ≤ x) (h2 : x < 2 ^ 63) : wrapInt64 x = x := by
  unfold wrapInt64
  omega

theorem wrapInt64_total_succ_ne_zero (total : Int) (h1 : 0 ≤ total) (h2 : total < 2 ^ 63) :
    wrapInt64 (total + 1) ≠ 0 := by
  unfold wrapInt64
  omega

theorem tickPercent_in_range (total x : Int) (ht : 0 ≤ total) (ht' : total < 2 ^ 63)
    (h0 : 0 ≤ x) (hx : x ≤ total) (h100 : x * 100 < 2 ^ 63) :
    wrapInt64 (Int.tdiv (wrapInt64 (wrapInt64 x * 100)) (wrapInt64 (total + 1)))
      = x * 100 / (total + 1) ∧
    0 ≤ x * 100 / (total + 1) ∧ x * 100 / (total + 1) ≤ 99 := by
  have hq0 : 0 ≤ x * 100 / (total + 1) := Int.ediv_nonneg (by omega) (by omega)
  have hq1 : x * 100 / (total + 1) < 100 :=
    Int.ediv_lt_of_lt_mul (by omega) (by omega)
  have hwx : wrapInt64 x = x := wrapInt64_of_range x (by omega) (by omega)
  have hwm : wrapInt64 (x * 100) = x * 100 := wrapInt64_of_range _ (by omega) h100
  rw [hwx, hwm]
  refine ⟨?_, hq0, by omega⟩
  by_cases hmax : total + 1 < 2 ^ 63
  · have hwt : wrapInt64 (total + 1) = total + 1 := wrapInt64_of_range _ (by omega) hmax
    rw [hwt, Int.tdiv_eq_ediv (by omega) (by omega)]
    exact wrapInt64_of_range _ (by omega) (by omega)
  · have htot : total + 1 = 2 ^ 63 := by omega
    have hwt : wrapInt64 (total + 1) = -(2 ^ 63) := by
      rw [htot]
      decide
    have hz : (x * 100).tdiv (2 ^ 63) = 0 := Int.tdiv_eq_zero_of_lt (by omega) h100
    have hq : x * 100 / (total + 1) = 0 := by
      rw [htot]
      exact Int.ediv_eq_zero_of_lt (by omega) h100
    rw [hwt, Int.tdiv_neg, hz, hq]
    decide

/-- C13: for an `int64` total that is not negative the divisor `total + 1` of a tick is
never zero, so the tick computes the percent as the quotient of
`(start + counter) * 100` by `total + 1` in `int64` arithmetic; and when
`0 ≤ start + counter ≤ total` and `(start + counter) * 100` is in the `int64` range,
the percent is the integer quotient `(start + counter) * 100 / (total + 1)` and
lies between 0 and 99. -/
theorem tickPercent_spec (total start written : Int)
    (ht : 0 ≤ total) (ht' : total < 2 ^ 63) :
    wrapInt64 (total + 1) ≠ 0 ∧
    tickPercent total start written
      = some (wrapInt64 (Int.tdiv (wrapInt64 (wrapInt64 (written + start) * 100))
          (wrapInt64 (total + 1)))) ∧
    (0 ≤ start + written → start + written ≤ total → (start + written) * 100 < 2 ^ 63 →
      tickPercent total start written = some ((start + written) * 100 / (total + 1)) ∧
      0 ≤ (start + written) * 100 / (total + 1) ∧
      (start + written) * 100 / (total + 1) ≤ 99) := by
  have hne := wrapInt64_total_succ_ne_zero total ht ht'
  have hval : tickPercent total start written
      = some (wrapInt64 (Int.tdiv (wrapInt64 (wrapInt64 (written + start) * 100))
          (wrapInt64 (total + 1)))) := by
    simp only [tickPercent, hne, if_false]
  refine ⟨hne, hval, ?_⟩
  intro h0 hx h100
  obtain ⟨h1, h2, h3⟩ := tickPercent_in_range total (start + written) ht ht' h0 hx h100
  refine ⟨?_, h2, h3⟩
  rw [hval, Int.add_comm written start, h1]

/-- Witness of C13: a complete transfer of 100 bytes, 40 of them resumed, shows 99. -/
theorem tickPercent_spec_witness :
    tickPercent 100 40 60 = some ((40 + 60) * 100 / (100 + 1)) ∧
    (0 : Int) ≤ (40 + 60) * 100 / (100 + 1) ∧
    ((40 : Int) + 60) * 100 / (100 + 1) ≤ 99 :=
  (tickPercent_spec 100 40 60 (by decide) (by decide)).2.2 (by decide) (by decide) (by decide)

/-! ## The canonical reference as a candidate -/

theorem buildGHCRReferences_mem (ref : Str) (mirrors : List Str) :
    ref ∈ buildGHCRReferences ref mirrors := by
  rw [buildGHCRReferences_eq_spec]
  simp only [buildCandidatesSpec]
  by_cases h : ref ∈ keepFirst (mirrorCandidates ref mirrors)
  · simp only [h, if_true]
  · simp [h]

theorem candidateLoop_finished_none {σ : Type} (fetch : Str → σ → (Str × Option GoError) × σ)
    (refs : List Str) :
    ∀ (lastErr : Option GoError) (s : σ),
      (candidateLoop fetch refs lastErr s).1 = LoopExit.finished none →
        refs = [] ∧ lastErr = none := by
  induction refs with
  | nil =>
    intro lastErr s h
    simp only [candidateLoop, LoopExit.finished.injEq] at h
    exact ⟨rfl, h⟩
  | cons c rest ih =>
    intro lastErr s h
    exfalso
    rw [candidateLoop] at h
    cases hf : fetch c s with
    | mk res s1 =>
      cases res with
      | mk target err =>
        cases err with
        | none =>
          rw [hf] at h
          simp at h
        | some e =>
          rw [hf] at h
          have := (ih (some e) s1 h).2
          simp at this

theorem fallbackLoop_eq_afterLoop {σ : Type} (fetch : Str → σ → (Str × Option GoError) × σ)
    (refs : List Str) :
    ∀ (lastErr : Option GoError) (s : σ),
      fallbackLoop fetch refs lastErr s
        = (afterLoop (candidateLoop fetch refs lastErr s).1,
           (candidateLoop fetch refs lastErr s).2.1,
           (candidateLoop fetch refs lastErr s).2.2) := by
  induction refs with
  | nil =>
    intro lastErr s
    cases lastErr <;> rfl
  | cons c rest ih =>
    intro lastErr s
    rw [fallbackLoop, candidateLoop]
    cases hf : fetch c s with
    | mk res s1 =>
      cases res with
      | mk target err =>
        cases err with
        | none => rfl
        | some e =>
          simp only []
          rw [ih (some e) s1]

theorem fallbackLoop_error_log {σ : Type} (fetch : Str → σ → (Str × Option GoError) × σ)
    (refs : List Str) :
    ∀ (lastErr : Option GoError) (s : σ),
      (fallbackLoop fetch refs lastErr s).1.2 ≠ none →
        (fallbackLoop fetch refs lastErr s).2.2 = refs := by
  induction refs with
  | nil =>
    intro lastErr s _
    rfl
  | cons c rest ih =>
    intro lastErr s h
    rw [fallbackLoop] at h ⊢
    cases hf : fetch c s with
    | mk res s1 =>
      cases res with
      | mk target err =>
        cases err with
        | none =>
          rw [hf] at h
          simp at h
        | some e =>
          rw [hf] at h
          simp only [] at h ⊢
          rw [ih (some e) s1 h]

theorem fallbackLoop_log_subset_of_not_allFail {σ : Type}
    (fetch : Str → σ → (Str × Option GoError) × σ) (pre rest : List Str) :
    ∀ (lastErr : Option GoError) (s : σ), allFail fetch pre s = false →
      ∀ x ∈ (fallbackLoop fetch (pre ++ rest) lastErr s).2.2, x ∈ pre := by
  induction pre with
  | nil =>
    intro lastErr s h
    simp [allFail] at h
  | cons c cs ih =>
    intro lastErr s h x hx
    simp only [List.cons_append] at hx
    rw [fallbackLoop] at hx
    cases hf : fetch c s with
    | mk res s1 =>
      cases res with
      | mk target err =>
        cases err with
        | none =>
          rw [hf] at hx
          simp only [List.mem_singleton] at hx
          rw [hx]
          exact List.mem_cons_self _ _
        | some e =>
          rw [hf] at hx
          simp only [List.mem_cons] at hx
          rcases hx with hx | hx
          · rw [hx]
            exact List.mem_cons_self _ _
          · have hcs : allFail fetch cs s1 = false := by
              simp only [allFail, hf, Option.isSome_some, Bool.true_and] at h
              exact h
            exact List.mem_cons_of_mem _ (ih (some e) s1 hcs x hx)

theorem fallbackLoop_log_head {σ : Type} (fetch : Str → σ → (Str × Option GoError) × σ)
    (c : Str) (rest : List Str) (lastErr : Option GoError) (s : σ) :
    c ∈ (fallbackLoop fetch (c :: rest) lastErr s).2.2 := by
  rw [fallbackLoop]
  cases hf : fetch c s with
  | mk res s1 =>
    cases res with
    | mk target err =>
      cases err with
      | none => simp
      | some e => simp

/-- C14: for every reference and every mirror list the candidate list is not empty and
contains the canonical reference, so the canonical reference is always a
candidate of the loop: the fetch is invoked on it exactly when no candidate
before it succeeds, and a download that returns an error has fetched it.  The
loop over the candidates never ends with `lastErr == nil`, so the branch
`no GHCR reference candidates` is not taken. -/
theorem buildGHCRReferences_canonical_candidate {σ : Type}
    (fetch : Str → σ → (Str × Option GoError) × σ) (ref : Str) (mirrors : List Str) (s : σ) :
    buildGHCRReferences ref mirrors ≠ [] ∧
    ref ∈ buildGHCRReferences ref mirrors ∧
    (candidateLoop fetch (buildGHCRReferences ref mirrors) none s).1 ≠ LoopExit.finished none ∧
    (downloadFromCandidates fetch ref mirrors s).1
      = afterLoop (candidateLoop fetch (buildGHCRReferences ref mirrors) none s).1 ∧
    ((downloadFromCandidates fetch ref mirrors s).1.2 ≠ none →
      ref ∈ (downloadFromCandidates fetch ref mirrors s).2.2) ∧
    (∃ pre post, buildGHCRReferences ref mirrors = pre ++ ref :: post ∧ ref ∉ pre ∧
      (ref ∈ (downloadFromCandidates fetch ref mirrors s).2.2 ↔ allFail fetch pre s = true)) := by
  have hmem := buildGHCRReferences_mem ref mirrors
  have hne : buildGHCRReferences ref mirrors ≠ [] := List.ne_nil_of_mem hmem
  refine ⟨hne, hmem, ?_, ?_, ?_, ?_⟩
  · intro h
    exact hne (candidateLoop_finished_none fetch _ none s h).1
  · rw [downloadFromCandidates, fallbackLoop_eq_afterLoop]
  · intro h
    rw [downloadFromCandidates] at h ⊢
    rw [fallbackLoop_error_log fetch _ none s h]
    exact hmem
  · obtain ⟨pre, post, hsplit, hpre⟩ := List.eq_append_cons_of_mem hmem
    refine ⟨pre, post, hsplit, hpre, ?_⟩
    rw [downloadFromCandidates, hsplit]
    constructor
    · intro hlog
      by_contra hfail
      have hfalse : allFail fetch pre s = false := by
        cases hv : allFail fetch pre s with
        | true => exact absurd hv hfail
        | false => rfl
      exact hpre (fallbackLoop_log_subset_of_not_allFail fetch pre (ref :: post) none s
        hfalse ref hlog)
    · intro hall
      obtain ⟨e', _, happ⟩ := fallbackLoop_append fetch pre (ref :: post) none s hall
      rw [happ]
      exact List.mem_append_right _ (fallbackLoop_log_head fetch ref post e' _)

theorem downloadWindowsFromGHCR_candidates {σ : Type}
    (selector : Option (Str → Option (List Str) × Option GoError))
    (fetch : Str → σ → (Str × Option GoError) × σ) (ref : Str) (s : σ) :
    (∃ mirrors, downloadWindowsFromGHCR (ref, none) selector fetch s
        = downloadFromCandidates fetch ref mirrors s) ∨
    (∃ err, downloadWindowsFromGHCR (ref, none) selector fetch s = (([], some err), s, [])) := by
  cases selector with
  | none => exact Or.inl ⟨defaultGHCRMirrors, rfl⟩
  | some select =>
    simp only [downloadWindowsFromGHCR]
    cases hsel : select ref with
    | mk selected err =>
      cases selected with
      | none =>
        cases err with
        | some e => exact Or.inr ⟨e, rfl⟩
        | none => exact Or.inl ⟨defaultGHCRMirrors, rfl⟩
      | some ms =>
        cases err with
        | some e => exact Or.inr ⟨e, rfl⟩
        | none => exact Or.inl ⟨ms, rfl⟩

/-! ## The file prompt -/

theorem runSelect_ok (i : Nat) (items : List Str) :
    runSelect (.ok i) items = ((i : Int), items.getD i [], none) := rfl

/-- With an existing ISO chosen at the file prompt and `11` or `10` chosen at the system
prompt, in a run in which line 214 does not divide by zero, `promptWinFiles` keeps
the chosen file and leaves the condition of a fresh download false. -/
theorem promptWinFiles_existing_iso_kept (formatLabel : Str → Int → Str)
    (editionChoice : Except GoError Nat) (status : Option DownloadStatus)
    (windows : List Str) (i k : Nat) (hi : i < windows.length) (hk : k = 0 ∨ k = 1)
    (hst : ∀ st, status = some st → wrapInt64 (st.TotalSize + 1) ≠ 0) :
    ∃ info, promptWinFiles formatLabel (.ok i) editionChoice (.ok k) initialInfo status windows
        = some (info, none) ∧
      info.WindowISO = windows.getD i [] ∧ info.WinVersion = (k : Int) ∧
      wantsFreshDownload info = false := by
  have hidx : ((i : Int) < (windows.length : Int)) := by omega
  have hget : ∀ extra : List Str, (windows ++ extra).getD i [] = windows.getD i [] := by
    intro extra
    simp only [List.getD_eq_getElem?_getD]
    rw [List.getElem?_append_left hi]
  have hsys : ∀ info : windowsInstallInfo, info.WinEdition = -1 →
      promptSystem (.ok k) info false
        = ({ info with WinVersion := (k : Int) }, none) := by
    intro info he
    rcases hk with rfl | rfl
    · simp [promptSystem, runSelect, Win7, he]
    · simp [promptSystem, runSelect, Win7, he]
  refine ⟨{ initialInfo with WindowISO := windows.getD i [], WinVersion := (k : Int) }, ?_, rfl,
    rfl, ?_⟩
  · cases status with
    | none =>
      simp only [promptWinFiles, runSelect_ok, hidx, if_true, hget]
      rw [hsys _ rfl]
    | some st =>
      have hdiv := hst st rfl
      simp only [promptWinFiles, statusProgress, hdiv, if_false, runSelect_ok, hidx, if_true,
        hget, List.append_assoc]
      rw [hsys _ rfl]
  · simp [wantsFreshDownload, initialInfo]

/-- C15, evaluated on the code: with the existing file `windows-7.iso` chosen at the
file prompt and `7` chosen at the system prompt, `promptWinFiles` keeps the chosen
file but sets `WinEdition` to 0, so the condition of a fresh download holds and
`promptInstallWindows` downloads a Windows ISO that replaces the chosen file. -/
theorem promptWinFiles_existing_iso_win7 :
    promptWinFiles sampleLabel (.ok 0) (.ok 0) (.ok 2) initialInfo none ["windows-7.iso".toList]
      = some ({ initialInfo with
          WindowISO := "windows-7.iso".toList, WinVersion := 2, WinEdition := 0 }, none) ∧
    wantsFreshDownload { initialInfo with
      WindowISO := "windows-7.iso".toList, WinVersion := 2, WinEdition := 0 } = true ∧
    (downloadWindows freshDownload { initialInfo with
      WindowISO := "windows-7.iso".toList, WinVersion := 2, WinEdition := 0 } none).1.WindowISO
      = "/iso/fresh.iso".toList := by
  decide

end Fastpve
